import Mathlib

/-!
# Verification of the NRBF codec (`nrbf-cli.ts` / `nrbf.ts`)

A shallow embedding of the TypeScript NRBF (".NET Remoting Binary Format")
codec.  Byte buffers are modelled as `List Nat` (each element is one byte of
the stream; a `DataView`/`Uint8Array` always yields values `< 256`).
JavaScript strings are modelled as the list of their UTF-8 code units
(`JStr`), which is exact for the ASCII data exercised here; the
`TextDecoder`/`TextEncoder` pair is the identity on that representation.
JavaScript numbers that hold integer values are modelled as `Int`;
IEEE-754 float payloads are carried as their raw little-endian bytes
(the codec never computes with them, it only round-trips the bits).

Fallible operations return `Option` (a JS `throw` is `none`).  Unbounded
recursion in the decoder is modelled with an explicit `fuel` parameter that
every theorem universally quantifies over; each JS call consumes at least
one byte of the stream or one loop counter, so with enough fuel the model
performs exactly the same reads as the source.
-/

namespace Nrbf

/-- A JavaScript string, as its list of UTF-8 code units. -/
abbrev JStr := List Nat

/-- 2^32, the unsigned 32-bit modulus used by JS bitwise coercions. -/
def u32 : Nat := 4294967296

/-- JS `ToUint32` of an integer value (bit pattern of a 32-bit value). -/
def toUInt32 (x : Int) : Nat := (x % (u32 : Int)).toNat

/-- Re-interpret (the low 32 bits of) a natural number as a signed 32-bit
integer, as `DataView.getInt32` does. -/
def toInt32 (n : Nat) : Int :=
  if n % u32 < 2147483648 then ((n % u32 : Nat) : Int)
  else ((n % u32 : Nat) : Int) - (u32 : Int)

/-- Re-interpret (the low 16 bits of) a natural number as a signed 16-bit
integer, as `DataView.getInt16` does. -/
def toInt16 (n : Nat) : Int :=
  if n % 65536 < 32768 then ((n % 65536 : Nat) : Int)
  else ((n % 65536 : Nat) : Int) - 65536

/-- The four little-endian bytes of an integer, as `DataView.setInt32`
(or `setUint32`) stores them. -/
def int32le (x : Int) : List Nat :=
  [toUInt32 x % 256, toUInt32 x / 256 % 256,
   toUInt32 x / 65536 % 256, toUInt32 x / 16777216 % 256]

/-- The two little-endian bytes of an integer, as `DataView.setInt16`
(or `setUint16`) stores them. -/
def int16le (x : Int) : List Nat :=
  [toUInt32 x % 256, toUInt32 x / 256 % 256]

/-! ## BinaryReader primitives (little-endian reads over the byte list) -/

/-- `BinaryReader.readByte` (`DataView.getUint8`): fails past the end. -/
def readByte : List Nat → Option (Nat × List Nat)
  | [] => none
  | b :: rest => some (b, rest)

/-- `BinaryReader.readInt32`: four little-endian bytes, signed. -/
def readInt32 : List Nat → Option (Int × List Nat)
  | b0 :: b1 :: b2 :: b3 :: rest =>
      some (toInt32 (b0 + b1 * 256 + b2 * 65536 + b3 * 16777216), rest)
  | _ => none

/-- `BinaryReader.readInt16`: two little-endian bytes, signed. -/
def readInt16 : List Nat → Option (Int × List Nat)
  | b0 :: b1 :: rest => some (toInt16 (b0 + b1 * 256), rest)
  | _ => none

/-- `BinaryReader.readUInt16`. -/
def readUInt16 : List Nat → Option (Int × List Nat)
  | b0 :: b1 :: rest => some (((b0 + b1 * 256 : Nat) : Int), rest)
  | _ => none

/-- `BinaryReader.readUInt32`. -/
def readUInt32 : List Nat → Option (Int × List Nat)
  | b0 :: b1 :: b2 :: b3 :: rest =>
      some (((b0 + b1 * 256 + b2 * 65536 + b3 * 16777216 : Nat) : Int), rest)
  | _ => none

/-- Take `n` raw bytes (fails when fewer are available), the primitive
underlying the 8-byte and 16-byte reads. -/
def readBytes (n : Nat) (bs : List Nat) : Option (List Nat × List Nat) :=
  if bs.length < n then none else some (bs.take n, bs.drop n)

/-- `BinaryReader.readVariableLengthInt`: 7-bit groups, little-endian first,
high bit of each byte = continuation.  The JS accumulator is a signed 32-bit
number built with `|=` and `<<`; we track its unsigned 32-bit pattern and
re-sign on return.  The JS loop refuses `shift ≥ 35` (too many groups);
reading past the end of the buffer also fails.  (The JS check happens before
the read, but both failures are `none` here.) -/
def readVariableLengthIntAux : List Nat → Nat → Nat → Option (Int × List Nat)
  | [], _, _ => none
  | b :: rest, value, shift =>
    if shift < 35 then
      let value' := value ||| ((b &&& 127) <<< shift % u32)
      if b &&& 128 = 0 then some (toInt32 value', rest)
      else readVariableLengthIntAux rest value' (shift + 7)
    else none

/-- `BinaryReader.readVariableLengthInt` entry point. -/
def readVariableLengthInt (bs : List Nat) : Option (Int × List Nat) :=
  readVariableLengthIntAux bs 0 0

/-- `BinaryWriter.writeVariableLengthInt`.  Callers always pass a
non-negative length below 2^31, so the JS `>>= 7` is division by 128. -/
def writeVariableLengthInt (value : Nat) : List Nat :=
  let b := value &&& 127
  let v := value >>> 7
  if v > 0 then (b ||| 128) :: writeVariableLengthInt v
  else [b]
termination_by value
decreasing_by
  simp only [Nat.shiftRight_eq_div_pow] at *
  omega

/-- `BinaryReader.readLengthPrefixedString`: varint byte length, then that
many UTF-8 bytes.  Length 0 is the empty string, a negative length throws,
reading past the end throws. -/
def readLengthPrefixedString (bs : List Nat) : Option (JStr × List Nat) := do
  let (length, rest) ← readVariableLengthInt bs
  if length = 0 then some ([], rest)
  else if length < 0 then none
  else
    let n := length.toNat
    if rest.length < n then none else some (rest.take n, rest.drop n)

/-- `BinaryWriter.writeLengthPrefixedString`: varint byte length, then the
UTF-8 bytes themselves. -/
def writeLengthPrefixedString (s : JStr) : List Nat :=
  writeVariableLengthInt s.length ++ s

/-! ## Claim C5: varint round-trip -/

theorem toInt32_small {n : Nat} (h : n < 2147483648) : toInt32 n = (n : Int) := by
  unfold toInt32 u32
  have h1 : n % 4294967296 = n := by omega
  rw [h1, if_pos h]

/-- Bits below `2^s` and a multiple of `2^s` are disjoint, so `|||` is `+`. -/
theorem lor_eq_add_of_lt {a s : Nat} (b : Nat) (h : a < 2 ^ s) :
    a ||| (b * 2 ^ s) = a + b * 2 ^ s := by
  apply Nat.eq_of_testBit_eq
  intro i
  rw [Nat.testBit_or]
  have hmul : b * 2 ^ s = 2 ^ s * b := Nat.mul_comm _ _
  have hadd : a + b * 2 ^ s = 2 ^ s * b + a := by omega
  rw [hadd, Nat.testBit_mul_pow_two_add b h i, hmul, Nat.testBit_mul_pow_two]
  by_cases hi : i < s
  · have hnge : ¬ s ≤ i := by omega
    simp [hi, hnge]
  · have hge : s ≤ i := Nat.not_lt.mp hi
    have ha : a.testBit i = false :=
      Nat.testBit_lt_two_pow (Nat.lt_of_lt_of_le h (Nat.pow_le_pow_right (by omega) hge))
    simp [hi, hge, ha]

theorem and_127_eq_mod (n : Nat) : n &&& 127 = n % 128 := by
  have h127 : (127 : Nat) = 2 ^ 7 - 1 := by norm_num
  rw [h127, Nat.and_pow_two_sub_one_eq_mod]

theorem and_128_eq_zero_iff (n : Nat) : n &&& 128 = 0 ↔ n % 256 < 128 := by
  have h128 : (128 : Nat) = 2 ^ 7 := by norm_num
  rw [h128, Nat.and_two_pow, Nat.testBit_to_div_mod]
  have hpow : (2 : Nat) ^ 7 = 128 := by norm_num
  rw [hpow]
  rcases Nat.mod_two_eq_zero_or_one (n / 128) with h2 | h2 <;> simp [h2] <;> omega

/-- One byte written without continuation bit is read back as that byte's
low 7 bits added at the current shift. -/
theorem writeVariableLengthInt_eq (value : Nat) :
    writeVariableLengthInt value =
      if value / 128 > 0 then (value % 128 ||| 128) :: writeVariableLengthInt (value / 128)
      else [value % 128] := by
  rw [writeVariableLengthInt]
  simp only [and_127_eq_mod, Nat.shiftRight_eq_div_pow]


/-- Round-trip of the varint reader over the writer's output, generalized
over the accumulator state. -/
theorem readVariableLengthIntAux_write (n : Nat) :
    ∀ shift value : Nat, shift ≤ 30 → n < 2 ^ (31 - shift) → value < 2 ^ shift →
    readVariableLengthIntAux (writeVariableLengthInt n) value shift =
      some (((value + n * 2 ^ shift : Nat) : Int), []) := by
  induction n using Nat.strong_induction_on with
  | _ n ih =>
    intro shift value hs hn hv
    rw [writeVariableLengthInt_eq]
    by_cases hdiv : n / 128 > 0
    · -- continuation byte, then recurse
      rw [if_pos hdiv]
      have h128 : 128 ≤ n := by omega
      -- from 2^7 ≤ n < 2^(31-shift) we get shift ≤ 23
      have hshift23 : shift ≤ 23 := by
        by_contra hgt
        have h31 : 31 - shift ≤ 7 := by omega
        have hlt : n < 2 ^ 7 :=
          Nat.lt_of_lt_of_le hn (Nat.pow_le_pow_right (by omega) h31)
        norm_num at hlt
        omega
      have hb : n % 128 ||| 128 = n % 128 + 128 := by
        have h := lor_eq_add_of_lt (a := n % 128) (s := 7) 1 (by omega)
        norm_num at h
        exact h
      rw [hb]
      simp only [readVariableLengthIntAux]
      have hlt35 : shift < 35 := by omega
      rw [if_pos hlt35]
      have hband : (n % 128 + 128) &&& 127 = n % 128 := by
        rw [and_127_eq_mod]; omega
      have hbcont : ¬((n % 128 + 128) &&& 128 = 0) := by
        rw [and_128_eq_zero_iff]; omega
      rw [hband, if_neg hbcont]
      -- the shifted group stays below 2^32
      have hgrp : (n % 128) <<< shift % u32 = n % 128 * 2 ^ shift := by
        rw [Nat.shiftLeft_eq]
        apply Nat.mod_eq_of_lt
        have hsm : n % 128 * 2 ^ shift < 128 * 2 ^ 23 * 2 := by
          have h1 : n % 128 < 128 := Nat.mod_lt _ (by omega)
          have h2 : 2 ^ shift ≤ 2 ^ 23 := Nat.pow_le_pow_right (by omega) hshift23
          calc n % 128 * 2 ^ shift ≤ 127 * 2 ^ 23 :=
                Nat.mul_le_mul (by omega) h2
            _ < 128 * 2 ^ 23 * 2 := by norm_num
        unfold u32
        norm_num at hsm ⊢
        omega
      rw [hgrp, lor_eq_add_of_lt (n % 128) hv]
      have hrec := ih (n / 128) (by omega) (shift + 7) (value + n % 128 * 2 ^ shift)
        (by omega)
        (by
          -- n / 128 < 2 ^ (31 - (shift + 7))
          have hsub : 31 - shift = (31 - (shift + 7)) + 7 := by omega
          rw [hsub, pow_add] at hn
          have hq := Nat.div_lt_of_lt_mul (by
            calc n < 2 ^ (31 - (shift + 7)) * 2 ^ 7 := hn
              _ = 2 ^ (31 - (shift + 7)) * 128 := by norm_num)
          omega)
        (by
          have h1 : n % 128 < 128 := Nat.mod_lt _ (by omega)
          have h2 : n % 128 * 2 ^ shift ≤ 127 * 2 ^ shift :=
            Nat.mul_le_mul_right _ (by omega)
          calc value + n % 128 * 2 ^ shift < 128 * 2 ^ shift := by omega
            _ = 2 ^ (shift + 7) := by rw [pow_add]; ring
          )
      rw [hrec]
      have harith : value + n % 128 * 2 ^ shift + n / 128 * 2 ^ (shift + 7)
          = value + n * 2 ^ shift := by
        have hn' : 128 * (n / 128) + n % 128 = n := by omega
        calc value + n % 128 * 2 ^ shift + n / 128 * 2 ^ (shift + 7)
            = value + (128 * (n / 128) + n % 128) * 2 ^ shift := by
              rw [pow_add]; ring
          _ = value + n * 2 ^ shift := by rw [hn']
      rw [harith]
    · -- final byte
      have hnlt : n < 128 := by omega
      rw [if_neg hdiv]
      have hmod : n % 128 = n := Nat.mod_eq_of_lt hnlt
      rw [hmod]
      simp only [readVariableLengthIntAux]
      have hlt35 : shift < 35 := by omega
      rw [if_pos hlt35]
      have hband : n &&& 127 = n := by rw [and_127_eq_mod]; omega
      have hbfin : n &&& 128 = 0 := by rw [and_128_eq_zero_iff]; omega
      rw [hband, if_pos hbfin]
      have hpowmul : 2 ^ (31 - shift) * 2 ^ shift = 2 ^ 31 := by
        rw [← pow_add]; congr 1; omega
      have hgrp : n <<< shift % u32 = n * 2 ^ shift := by
        rw [Nat.shiftLeft_eq]
        apply Nat.mod_eq_of_lt
        have h31 : n * 2 ^ shift < 2 ^ 31 := by
          calc n * 2 ^ shift < 2 ^ (31 - shift) * 2 ^ shift :=
                Nat.mul_lt_mul_of_pos_right hn (Nat.two_pow_pos shift)
            _ = 2 ^ 31 := hpowmul
        have hu : u32 = 2 ^ 32 := by unfold u32; norm_num
        rw [hu]
        calc n * 2 ^ shift < 2 ^ 31 := h31
          _ < 2 ^ 32 := by norm_num
      rw [hgrp, lor_eq_add_of_lt n hv]
      have hsum : value + n * 2 ^ shift < 2147483648 := by
        have hmul : n * 2 ^ shift + 2 ^ shift ≤ 2 ^ 31 := by
          have h1 : (n + 1) * 2 ^ shift ≤ 2 ^ (31 - shift) * 2 ^ shift :=
            Nat.mul_le_mul_right _ (by omega)
          rw [hpowmul] at h1
          calc n * 2 ^ shift + 2 ^ shift = (n + 1) * 2 ^ shift := by ring
            _ ≤ 2 ^ 31 := h1
        have h31 : (2 : Nat) ^ 31 = 2147483648 := by norm_num
        omega
      rw [toInt32_small hsum]

/-- The varint writer always emits at least one byte. -/
theorem writeVariableLengthInt_ne_nil (n : Nat) : writeVariableLengthInt n ≠ [] := by
  rw [writeVariableLengthInt_eq]
  by_cases h : n / 128 > 0 <;> simp [h]

/-- The varint writer emits at most `k+1` bytes for `n < 128^(k+1)`. -/
theorem writeVariableLengthInt_length (k : Nat) :
    ∀ n : Nat, n < 128 ^ (k + 1) → (writeVariableLengthInt n).length ≤ k + 1 := by
  induction k with
  | zero =>
    intro n hn
    rw [writeVariableLengthInt_eq]
    have hz : n / 128 = 0 := by
      norm_num at hn
      omega
    simp [hz]
  | succ k ih =>
    intro n hn
    rw [writeVariableLengthInt_eq]
    by_cases h : n / 128 > 0
    · rw [if_pos h, List.length_cons]
      have hq : n / 128 < 128 ^ (k + 1) := by
        apply Nat.div_lt_of_lt_mul
        rw [pow_succ] at hn
        omega
      have := ih (n / 128) hq
      omega
    · simp [h]

/-- C5.  For every integer `n` with `0 ≤ n ≤ 2^31 − 1`, reading back the
bytes produced by `BinaryWriter.writeVariableLengthInt n` with
`BinaryReader.readVariableLengthInt` yields exactly `n` (consuming the whole
output), and the number of bytes written is between 1 and 5 inclusive. -/
theorem varint_roundtrip (n : Nat) (h : n ≤ 2147483647) :
    readVariableLengthInt (writeVariableLengthInt n) = some ((n : Int), []) ∧
    1 ≤ (writeVariableLengthInt n).length ∧
    (writeVariableLengthInt n).length ≤ 5 := by
  refine ⟨?_, ?_, ?_⟩
  · unfold readVariableLengthInt
    have h2 := readVariableLengthIntAux_write n 0 0 (by omega)
      (by norm_num; omega) (by norm_num)
    have h3 : 0 + n * 2 ^ 0 = n := by norm_num
    rw [h3] at h2
    exact h2
  · have := writeVariableLengthInt_ne_nil n
    cases hw : writeVariableLengthInt n with
    | nil => exact absurd hw this
    | cons a l => simp
  · exact writeVariableLengthInt_length 4 n (by norm_num; omega)

/-- Witness for C5 at `n = 300` (a two-byte varint). -/
theorem varint_roundtrip_witness :
    (300 : Nat) ≤ 2147483647 ∧
    (readVariableLengthInt (writeVariableLengthInt 300) = some ((300 : Int), []) ∧
     1 ≤ (writeVariableLengthInt 300).length ∧
     (writeVariableLengthInt 300).length ≤ 5) :=
  ⟨by norm_num, varint_roundtrip 300 (by norm_num)⟩

/-! ## The record model (`nrbf.ts` record classes)

One inductive `Val` covers both JS `PrimitiveValue` slot contents (through
the `prim` constructor) and every `NrbfRecord` subclass; the JS
`instanceof NrbfRecord` test is "is not `prim`".  `ClassRecord.memberValues`
(a JS `Map<string, ObjectValue>`) is an insertion-ordered association list.
The numeric enum values are the wire bytes of `RecordType`, `BinaryType`,
`PrimitiveType` and `BinaryArrayType`. -/

/-- `ClassInfo` (objectId, name, memberCount, memberNames). -/
structure ClassInfo where
  objectId : Int
  name : JStr
  memberCount : Int
  memberNames : List JStr
  deriving DecidableEq

/-- `AdditionalTypeInfo` (tagged union). -/
inductive AdditionalTypeInfo where
  | aPrimitive (primitiveType : Nat)
  | aSystemClass (className : JStr)
  | aClass (className : JStr) (libraryId : Int)
  | aNone
  deriving DecidableEq

/-- `MemberTypeInfo`: parallel arrays of BinaryType bytes and additional infos. -/
structure MemberTypeInfo where
  binaryTypeEnums : List Nat
  additionalInfos : List AdditionalTypeInfo
  deriving DecidableEq

/-- JS `PrimitiveValue` as produced by `readPrimitiveValue`: `pNum` holds
integral numbers (Byte..UInt64, DateTime, TimeSpan — kept exact here, where
JS narrows 64-bit reads through a float64), `pF32`/`pF64` carry the raw
little-endian IEEE bytes, `pStr` covers `Char`, `String` and the 32-char
`Decimal` hex string, `pNull` is the JS `null`. -/
inductive PrimVal where
  | pBool (b : Bool)
  | pNum (n : Int)
  | pF32 (bytes : List Nat)
  | pF64 (bytes : List Nat)
  | pStr (s : JStr)
  | pNull
  deriving DecidableEq

/-- A member/element slot value or an NRBF record. -/
inductive Val where
  | prim (p : PrimVal)
  | header (rootId headerId majorVersion minorVersion : Int)
  | library (libraryId : Int) (libraryName : JStr)
  | cls (classInfo : ClassInfo) (memberTypeInfo : Option MemberTypeInfo)
      (libraryId : Option Int) (recordTypeValue : Nat)
      (memberValues : List (JStr × Val))
  | binArray (arrayObjectId : Int) (binaryArrayTypeEnum : Nat) (rank : Int)
      (lengths : List Int) (lowerBounds : Option (List Int))
      (typeEnum : Nat) (additionalTypeInfo : AdditionalTypeInfo)
      (elementValues : List Val)
  | arrPrim (arrayObjectId : Int) (length : Int) (primitiveTypeEnum : Nat)
      (elementValues : List PrimVal)
  | arrObj (arrayObjectId : Int) (length : Int) (elementValues : List Val)
  | arrStr (arrayObjectId : Int) (length : Int) (elementValues : List Val)
  | objStr (stringObjectId : Int) (value : JStr)
  | memberPrim (primitiveTypeEnum : Nat) (value : PrimVal)
  | ref (idRef : Int)
  | onull
  | onullMultiple (nullCount : Int)
  | onullMultiple256 (nullCount : Nat)
  | msgEnd

/-- The `objectId` getter of each record class (`null` = `none`); a JS
property access on a primitive also yields `undefined`. -/
def objectId : Val → Option Int
  | .library libId _ => some libId
  | .cls info _ _ _ _ => some info.objectId
  | .binArray id _ _ _ _ _ _ _ => some id
  | .arrPrim id _ _ _ => some id
  | .arrObj id _ _ => some id
  | .arrStr id _ _ => some id
  | .objStr id _ => some id
  | _ => none

/-- JS `Map.get` over an insertion-ordered association list. -/
def mapGet {κ α : Type} [DecidableEq κ] : List (κ × α) → κ → Option α
  | [], _ => none
  | (k, v) :: rest, key => if k = key then some v else mapGet rest key

/-- JS `Map.set`: overwrite in place when the key exists, else append. -/
def mapSet {κ α : Type} [DecidableEq κ] : List (κ × α) → κ → α → List (κ × α)
  | [], key, v => [(key, v)]
  | (k, w) :: rest, key, v =>
      if k = key then (key, v) :: rest else (k, w) :: mapSet rest key v

/-- `ClassRecord.getValue`: `memberValues.get(memberName)`. -/
def getValue (memberValues : List (JStr × Val)) (memberName : JStr) : Option Val :=
  mapGet memberValues memberName

/-- `ClassRecord.setValue`: throws `Member '…' does not exist in class '…'`
when the name is not in `classInfo.memberNames` (the member map is left
untouched); otherwise sets the value with no check against
`memberTypeInfo`.  The error carries the class name and member name. -/
def setValue (classInfo : ClassInfo) (memberValues : List (JStr × Val))
    (memberName : JStr) (value : Val) :
    Except (JStr × JStr) (List (JStr × Val)) :=
  if memberName ∈ classInfo.memberNames then
    .ok (mapSet memberValues memberName value)
  else .error (classInfo.name, memberName)

/-! ## Claim C8: setValue / getValue -/

theorem mapGet_mapSet {κ α : Type} [DecidableEq κ]
    (m : List (κ × α)) (k : κ) (v : α) : mapGet (mapSet m k v) k = some v := by
  induction m with
  | nil => simp [mapSet, mapGet]
  | cons kv rest ih =>
    obtain ⟨k', w⟩ := kv
    by_cases h : k' = k
    · subst h
      simp [mapSet, mapGet]
    · simp [mapSet, mapGet, h, ih]

/-- C8.  `setValue` on a name outside `memberNames` fails with the
UnknownMember error (naming the class and the member) and produces no
updated member map; on a name inside `memberNames` it succeeds with no
type check against `memberTypeInfo`, and `getValue` on the result returns
exactly the stored value. -/
theorem setValue_spec (classInfo : ClassInfo) (memberValues : List (JStr × Val))
    (memberName : JStr) (value : Val) :
    (memberName ∉ classInfo.memberNames →
      setValue classInfo memberValues memberName value =
        .error (classInfo.name, memberName)) ∧
    (memberName ∈ classInfo.memberNames →
      setValue classInfo memberValues memberName value =
        .ok (mapSet memberValues memberName value) ∧
      getValue (mapSet memberValues memberName value) memberName = some value) := by
  constructor
  · intro h
    unfold setValue
    rw [if_neg h]
  · intro h
    constructor
    · unfold setValue
      rw [if_pos h]
    · exact mapGet_mapSet memberValues memberName value

/-- Witness for C8: class `C` with single member `m`; setting `x` fails
with the UnknownMember error, setting `m` succeeds and reads back. -/
theorem setValue_spec_witness :
    setValue (ClassInfo.mk 1 [67] 1 [[109]]) [] [120] (.prim .pNull) =
      .error ([67], [120]) ∧
    setValue (ClassInfo.mk 1 [67] 1 [[109]]) [] [109] (.prim .pNull) =
      .ok [([109], .prim .pNull)] ∧
    getValue [([109], .prim .pNull)] [109] = some (.prim .pNull) := by
  refine ⟨(setValue_spec (ClassInfo.mk 1 [67] 1 [[109]]) [] [120] (.prim .pNull)).1
      (by decide), ?_, ?_⟩
  · exact ((setValue_spec (ClassInfo.mk 1 [67] 1 [[109]]) [] [109] (.prim .pNull)).2
      (by decide)).1
  · exact ((setValue_spec (ClassInfo.mk 1 [67] 1 [[109]]) [] [109] (.prim .pNull)).2
      (by decide)).2

/-! ## GUID helpers (`ClassRecord.reconstructGuid` / `createGuidRecord`)

`'0'..'9'` are code units 48..57, `'a'..'f'` 97..102, `'A'..'F'` 65..70,
`'-'` is 45.  `System.Guid` is the code-unit list of that name and
`'_a'..'_k'` are `[95,97] .. [95,107]`. -/

/-- The value of one hex digit, as `parseInt(·, 16)` accepts it. -/
def hexDigit (c : Nat) : Option Nat :=
  if 48 ≤ c ∧ c ≤ 57 then some (c - 48)
  else if 97 ≤ c ∧ c ≤ 102 then some (c - 87)
  else if 65 ≤ c ∧ c ≤ 70 then some (c - 55)
  else none

/-- `isHexDigit c = true` iff `parseInt` accepts `c` as a hex digit. -/
def isHexDigit (c : Nat) : Bool := (hexDigit c).isSome

/-- The accumulating loop of `parseInt(s, 16)`: consume leading hex digits. -/
def parseIntHexAux : JStr → Nat → Nat
  | [], acc => acc
  | c :: rest, acc =>
    match hexDigit c with
    | some d => parseIntHexAux rest (acc * 16 + d)
    | none => acc

/-- JS `parseInt(s, 16)`.  A string with no leading hex digit gives `NaN`;
since every consumer here stores the result into a byte (where `NaN`
becomes 0), `NaN` is modelled as 0. -/
def parseIntHex (s : JStr) : Nat := parseIntHexAux s 0

/-- `v.toString(16)` digit for `v < 16` (lowercase). -/
def lowHexChar (v : Nat) : Nat := if v < 10 then 48 + v else 87 + v

/-- `b.toString(16).padStart(2, '0')` for a byte `b < 256`. -/
def byteToHexPair (b : Nat) : JStr := [lowHexChar (b / 16), lowHexChar (b % 16)]

/-- `hex.slice(0,8)-hex.slice(8,12)-hex.slice(12,16)-hex.slice(16,20)-hex.slice(20)`. -/
def formatGuid (hex : JStr) : JStr :=
  hex.take 8 ++ [45] ++ (hex.drop 8).take 4 ++ [45] ++ (hex.drop 12).take 4 ++
    [45] ++ (hex.drop 16).take 4 ++ [45] ++ hex.drop 20

/-- JS `String.prototype.toLowerCase` on one ASCII code unit. -/
def jsToLowerChar (c : Nat) : Nat := if 65 ≤ c ∧ c ≤ 90 then c + 32 else c

/-- JS `String.prototype.toLowerCase` (ASCII range, enough for GUIDs). -/
def jsToLower (s : JStr) : JStr := s.map jsToLowerChar

/-- `'_a' .. '_k'`. -/
def guidMemberNames : List JStr :=
  [[95,97],[95,98],[95,99],[95,100],[95,101],[95,102],
   [95,103],[95,104],[95,105],[95,106],[95,107]]

/-- The `ClassInfo` built by `createGuidRecord`. -/
def guidClassInfo (objectId : Int) : ClassInfo :=
  ClassInfo.mk objectId [83,121,115,116,101,109,46,71,117,105,100] 11 guidMemberNames

/-- The `MemberTypeInfo` built by `createGuidRecord`:
Int32 (8), Int16 (7), Int16 (7), then eight Byte (2) members. -/
def guidMemberTypeInfo : MemberTypeInfo :=
  MemberTypeInfo.mk [0,0,0,0,0,0,0,0,0,0,0]
    [.aPrimitive 8, .aPrimitive 7, .aPrimitive 7, .aPrimitive 2, .aPrimitive 2,
     .aPrimitive 2, .aPrimitive 2, .aPrimitive 2, .aPrimitive 2, .aPrimitive 2,
     .aPrimitive 2]

/-- The body of `ClassRecord.createGuidRecord` after the dash removal:
byte `i` is `parseInt(hex.slice(2i, 2i+2), 16)` stored through a
`Uint8Array` (hence `% 256`); `_a` is `getInt32(0, true)`, `_b`/`_c` are
`getInt16(4/6, true)`, `_d`..`_k` are the raw bytes 8..15.  The eleven
`setValue` calls on the fresh record produce exactly this member map. -/
def createGuidAux (objectId : Int) (hex : JStr) : Val :=
  let byteAt : Nat → Nat := fun i => parseIntHex ((hex.drop (2 * i)).take 2) % 256
  Val.cls (guidClassInfo objectId) (some guidMemberTypeInfo) none 4
    [([95,97], .prim (.pNum (toInt32
        (byteAt 0 + byteAt 1 * 256 + byteAt 2 * 65536 + byteAt 3 * 16777216)))),
     ([95,98], .prim (.pNum (toInt16 (byteAt 4 + byteAt 5 * 256)))),
     ([95,99], .prim (.pNum (toInt16 (byteAt 6 + byteAt 7 * 256)))),
     ([95,100], .prim (.pNum (byteAt 8))),
     ([95,101], .prim (.pNum (byteAt 9))),
     ([95,102], .prim (.pNum (byteAt 10))),
     ([95,103], .prim (.pNum (byteAt 11))),
     ([95,104], .prim (.pNum (byteAt 12))),
     ([95,105], .prim (.pNum (byteAt 13))),
     ([95,106], .prim (.pNum (byteAt 14))),
     ([95,107], .prim (.pNum (byteAt 15)))]

/-- `ClassRecord.createGuidRecord` (`NrbfUtils.createGuidRecord`):
strip the dashes (the global dash `replace`), then build the record. -/
def createGuidRecord (objectId : Int) (guidString : JStr) : Val :=
  createGuidAux objectId (guidString.filter (fun c => c != 45))

/-- A member value read `as number`: only an integral number qualifies;
a missing or differently-typed member is modelled as failure. -/
def getNum (memberValues : List (JStr × Val)) (memberName : JStr) : Option Int :=
  match getValue memberValues memberName with
  | some (.prim (.pNum n)) => some n
  | _ => none

/-- The byte `(x >> (8*i)) & 0xFF` of a JS 32-bit bitwise operand. -/
def jsByte (x : Int) (i : Nat) : Nat := toUInt32 x / 256 ^ i % 256

/-- `ClassRecord.reconstructGuid` (`NrbfUtils.parseGuid` body): read the
eleven members, rebuild the 16 bytes (first three groups little-endian,
then the eight raw bytes), hex-format each byte lowercase and insert the
dashes. -/
def reconstructGuid (memberValues : List (JStr × Val)) : Option JStr := do
  let a ← getNum memberValues [95,97]
  let b ← getNum memberValues [95,98]
  let c ← getNum memberValues [95,99]
  let d ← getNum memberValues [95,100]
  let e ← getNum memberValues [95,101]
  let f ← getNum memberValues [95,102]
  let g ← getNum memberValues [95,103]
  let h ← getNum memberValues [95,104]
  let i ← getNum memberValues [95,105]
  let j ← getNum memberValues [95,106]
  let k ← getNum memberValues [95,107]
  let bytes : List Nat :=
    [jsByte a 0, jsByte a 1, jsByte a 2, jsByte a 3,
     jsByte b 0, jsByte b 1,
     jsByte c 0, jsByte c 1,
     jsByte d 0, jsByte e 0, jsByte f 0, jsByte g 0,
     jsByte h 0, jsByte i 0, jsByte j 0, jsByte k 0]
  some (formatGuid (bytes.map byteToHexPair).flatten)

/-- `NrbfUtils.parseGuid`: defined on class records. -/
def parseGuid : Val → Option JStr
  | .cls _ _ _ _ memberValues => reconstructGuid memberValues
  | _ => none

/-- The `xxxxxxxx-xxxx-xxxx-xxxx-xxxxxxxxxxxx` shape: 32 hex digits
(either case) with dashes at positions 8, 13, 18 and 23. -/
def wellFormedGuid : JStr → Bool
  | x0 :: x1 :: x2 :: x3 :: x4 :: x5 :: x6 :: x7 :: y1 ::
    x8 :: x9 :: x10 :: x11 :: y2 :: x12 :: x13 :: x14 :: x15 :: y3 ::
    x16 :: x17 :: x18 :: x19 :: y4 ::
    x20 :: x21 :: x22 :: x23 :: x24 :: x25 :: x26 :: x27 :: x28 :: x29 ::
    x30 :: x31 :: [] =>
      y1 == 45 && y2 == 45 && y3 == 45 && y4 == 45 &&
      [x0,x1,x2,x3,x4,x5,x6,x7,x8,x9,x10,x11,x12,x13,x14,x15,
       x16,x17,x18,x19,x20,x21,x22,x23,x24,x25,x26,x27,x28,x29,x30,x31].all isHexDigit
  | _ => false

/-- The numeric value of a hex digit (0 for non-digits). -/
def hv (c : Nat) : Nat := (hexDigit c).getD 0

/-! ## Claim C6: GUID round-trip -/

theorem isHexDigit_spec {c : Nat} (h : isHexDigit c = true) :
    (48 ≤ c ∧ c ≤ 57 ∧ hv c = c - 48) ∨ (97 ≤ c ∧ c ≤ 102 ∧ hv c = c - 87) ∨
    (65 ≤ c ∧ c ≤ 70 ∧ hv c = c - 55) := by
  unfold isHexDigit hexDigit at h
  unfold hv hexDigit
  by_cases h1 : 48 ≤ c ∧ c ≤ 57
  · left
    rw [if_pos h1]
    exact ⟨h1.1, h1.2, rfl⟩
  · rw [if_neg h1] at h ⊢
    by_cases h2 : 97 ≤ c ∧ c ≤ 102
    · right; left
      rw [if_pos h2]
      exact ⟨h2.1, h2.2, rfl⟩
    · rw [if_neg h2] at h ⊢
      by_cases h3 : 65 ≤ c ∧ c ≤ 70
      · right; right
        rw [if_pos h3]
        exact ⟨h3.1, h3.2, rfl⟩
      · rw [if_neg h3] at h
        simp at h

theorem hv_lt {c : Nat} (h : isHexDigit c = true) : hv c < 16 := by
  rcases isHexDigit_spec h with ⟨a, b, e⟩ | ⟨a, b, e⟩ | ⟨a, b, e⟩ <;> omega

theorem hexDigit_ne_dash {c : Nat} (h : isHexDigit c = true) : (c != 45) = true := by
  rcases isHexDigit_spec h with ⟨a, b, e⟩ | ⟨a, b, e⟩ | ⟨a, b, e⟩ <;>
    simp [bne_iff_ne] <;> omega

theorem lowHexChar_hv {c : Nat} (h : isHexDigit c = true) :
    lowHexChar (hv c) = jsToLowerChar c := by
  rcases isHexDigit_spec h with ⟨a, b, e⟩ | ⟨a, b, e⟩ | ⟨a, b, e⟩ <;>
    rw [e] <;> unfold lowHexChar jsToLowerChar <;> split_ifs <;> omega

theorem hexDigit_eq_hv {c : Nat} (h : isHexDigit c = true) :
    hexDigit c = some (hv c) := by
  unfold isHexDigit at h
  unfold hv
  cases hx : hexDigit c with
  | none => rw [hx] at h; simp at h
  | some d => rfl

theorem parseIntHex_pair {cA cB : Nat} (hA : isHexDigit cA = true)
    (hB : isHexDigit cB = true) :
    parseIntHex [cA, cB] % 256 = hv cA * 16 + hv cB := by
  have h1 : parseIntHex [cA, cB] = hv cA * 16 + hv cB := by
    unfold parseIntHex
    simp only [parseIntHexAux, hexDigit_eq_hv hA, hexDigit_eq_hv hB]
    omega
  rw [h1]
  have := hv_lt hA
  have := hv_lt hB
  omega

theorem pair_lt {cA cB : Nat} (hA : isHexDigit cA = true) (hB : isHexDigit cB = true) :
    hv cA * 16 + hv cB < 256 := by
  have := hv_lt hA
  have := hv_lt hB
  omega

theorem byteToHexPair_eq {cA cB : Nat} (hA : isHexDigit cA = true)
    (hB : isHexDigit cB = true) :
    byteToHexPair (hv cA * 16 + hv cB) = [jsToLowerChar cA, jsToLowerChar cB] := by
  unfold byteToHexPair
  have hBlt := hv_lt hB
  have h1 : (hv cA * 16 + hv cB) / 16 = hv cA := by omega
  have h2 : (hv cA * 16 + hv cB) % 16 = hv cB := by omega
  rw [h1, h2, lowHexChar_hv hA, lowHexChar_hv hB]

/-- Packing four bytes little-endian through `getInt32` and unpacking them
with the JS shift-and-mask idiom returns the original bytes (also when the
packed value is negative). -/
theorem jsByte4 {B0 B1 B2 B3 : Nat} (h0 : B0 < 256) (h1 : B1 < 256)
    (h2 : B2 < 256) (h3 : B3 < 256) :
    jsByte (toInt32 (B0 + B1 * 256 + B2 * 65536 + B3 * 16777216)) 0 = B0 ∧
    jsByte (toInt32 (B0 + B1 * 256 + B2 * 65536 + B3 * 16777216)) 1 = B1 ∧
    jsByte (toInt32 (B0 + B1 * 256 + B2 * 65536 + B3 * 16777216)) 2 = B2 ∧
    jsByte (toInt32 (B0 + B1 * 256 + B2 * 65536 + B3 * 16777216)) 3 = B3 := by
  unfold jsByte toUInt32 toInt32 u32
  norm_num
  split_ifs <;> refine ⟨?_, ?_, ?_, ?_⟩ <;> omega

/-- Same for two bytes through `getInt16`. -/
theorem jsByte2 {B0 B1 : Nat} (h0 : B0 < 256) (h1 : B1 < 256) :
    jsByte (toInt16 (B0 + B1 * 256)) 0 = B0 ∧
    jsByte (toInt16 (B0 + B1 * 256)) 1 = B1 := by
  unfold jsByte toUInt32 toInt16 u32
  norm_num
  split_ifs <;> refine ⟨?_, ?_⟩ <;> omega

/-- A raw byte member survives the `Uint8Array` store. -/
theorem jsByte0 {B : Nat} (h : B < 256) : jsByte ((B : Nat) : Int) 0 = B := by
  unfold jsByte toUInt32 u32
  norm_num
  omega

/-- Symbolic evaluation of `reconstructGuid` on the member map laid out by
`createGuidRecord`. -/
theorem reconstructGuid_guidMembers (a b c d e f g h2 i j k : Int) :
    reconstructGuid
      [([95,97], .prim (.pNum a)), ([95,98], .prim (.pNum b)),
       ([95,99], .prim (.pNum c)), ([95,100], .prim (.pNum d)),
       ([95,101], .prim (.pNum e)), ([95,102], .prim (.pNum f)),
       ([95,103], .prim (.pNum g)), ([95,104], .prim (.pNum h2)),
       ([95,105], .prim (.pNum i)), ([95,106], .prim (.pNum j)),
       ([95,107], .prim (.pNum k))] =
    some (formatGuid
      (([jsByte a 0, jsByte a 1, jsByte a 2, jsByte a 3,
         jsByte b 0, jsByte b 1, jsByte c 0, jsByte c 1,
         jsByte d 0, jsByte e 0, jsByte f 0, jsByte g 0,
         jsByte h2 0, jsByte i 0, jsByte j 0, jsByte k 0].map byteToHexPair)).flatten) :=
  rfl

/-- `createGuidRecord` after dash removal, parsed back: each digit pair
round-trips through the byte packing, lowercased. -/
theorem createGuidAux_parse (oid : Int)
    (c0 c1 c2 c3 c4 c5 c6 c7 : Nat)
    (c8 c9 c10 c11 c12 c13 c14 c15 : Nat)
    (c16 c17 c18 c19 c20 c21 c22 c23 : Nat)
    (c24 c25 c26 c27 c28 c29 c30 c31 : Nat)
    (h0 : isHexDigit c0 = true) (h1 : isHexDigit c1 = true) (h2 : isHexDigit c2 = true) (h3 : isHexDigit c3 = true)
    (h4 : isHexDigit c4 = true) (h5 : isHexDigit c5 = true) (h6 : isHexDigit c6 = true) (h7 : isHexDigit c7 = true)
    (h8 : isHexDigit c8 = true) (h9 : isHexDigit c9 = true) (h10 : isHexDigit c10 = true) (h11 : isHexDigit c11 = true)
    (h12 : isHexDigit c12 = true) (h13 : isHexDigit c13 = true) (h14 : isHexDigit c14 = true) (h15 : isHexDigit c15 = true)
    (h16 : isHexDigit c16 = true) (h17 : isHexDigit c17 = true) (h18 : isHexDigit c18 = true) (h19 : isHexDigit c19 = true)
    (h20 : isHexDigit c20 = true) (h21 : isHexDigit c21 = true) (h22 : isHexDigit c22 = true) (h23 : isHexDigit c23 = true)
    (h24 : isHexDigit c24 = true) (h25 : isHexDigit c25 = true) (h26 : isHexDigit c26 = true) (h27 : isHexDigit c27 = true)
    (h28 : isHexDigit c28 = true) (h29 : isHexDigit c29 = true) (h30 : isHexDigit c30 = true) (h31 : isHexDigit c31 = true)
    :
    parseGuid (createGuidAux oid [c0, c1, c2, c3, c4, c5, c6, c7, c8, c9, c10, c11, c12, c13, c14, c15, c16, c17, c18, c19, c20, c21, c22, c23, c24, c25, c26, c27, c28, c29, c30, c31]) =
      some (formatGuid [jsToLowerChar c0, jsToLowerChar c1, jsToLowerChar c2, jsToLowerChar c3, jsToLowerChar c4, jsToLowerChar c5, jsToLowerChar c6, jsToLowerChar c7, jsToLowerChar c8, jsToLowerChar c9, jsToLowerChar c10, jsToLowerChar c11, jsToLowerChar c12, jsToLowerChar c13, jsToLowerChar c14, jsToLowerChar c15, jsToLowerChar c16, jsToLowerChar c17, jsToLowerChar c18, jsToLowerChar c19, jsToLowerChar c20, jsToLowerChar c21, jsToLowerChar c22, jsToLowerChar c23, jsToLowerChar c24, jsToLowerChar c25, jsToLowerChar c26, jsToLowerChar c27, jsToLowerChar c28, jsToLowerChar c29, jsToLowerChar c30, jsToLowerChar c31]) := by
  have hrec := reconstructGuid_guidMembers
    (toInt32 (parseIntHex [c0, c1] % 256 + parseIntHex [c2, c3] % 256 * 256 +
      parseIntHex [c4, c5] % 256 * 65536 + parseIntHex [c6, c7] % 256 * 16777216))
    (toInt16 (parseIntHex [c8, c9] % 256 + parseIntHex [c10, c11] % 256 * 256))
    (toInt16 (parseIntHex [c12, c13] % 256 + parseIntHex [c14, c15] % 256 * 256))
    ((parseIntHex [c16, c17] % 256 : Nat) : Int)
    ((parseIntHex [c18, c19] % 256 : Nat) : Int)
    ((parseIntHex [c20, c21] % 256 : Nat) : Int)
    ((parseIntHex [c22, c23] % 256 : Nat) : Int)
    ((parseIntHex [c24, c25] % 256 : Nat) : Int)
    ((parseIntHex [c26, c27] % 256 : Nat) : Int)
    ((parseIntHex [c28, c29] % 256 : Nat) : Int)
    ((parseIntHex [c30, c31] % 256 : Nat) : Int)
  refine Eq.trans ?_ (Eq.trans hrec ?_)
  · rfl
  · rw [parseIntHex_pair h0 h1, parseIntHex_pair h2 h3, parseIntHex_pair h4 h5, parseIntHex_pair h6 h7, parseIntHex_pair h8 h9, parseIntHex_pair h10 h11, parseIntHex_pair h12 h13, parseIntHex_pair h14 h15, parseIntHex_pair h16 h17, parseIntHex_pair h18 h19, parseIntHex_pair h20 h21, parseIntHex_pair h22 h23, parseIntHex_pair h24 h25, parseIntHex_pair h26 h27, parseIntHex_pair h28 h29, parseIntHex_pair h30 h31]
    rw [(jsByte4 (pair_lt h0 h1) (pair_lt h2 h3) (pair_lt h4 h5) (pair_lt h6 h7)).1,
        (jsByte4 (pair_lt h0 h1) (pair_lt h2 h3) (pair_lt h4 h5) (pair_lt h6 h7)).2.1,
        (jsByte4 (pair_lt h0 h1) (pair_lt h2 h3) (pair_lt h4 h5) (pair_lt h6 h7)).2.2.1,
        (jsByte4 (pair_lt h0 h1) (pair_lt h2 h3) (pair_lt h4 h5) (pair_lt h6 h7)).2.2.2,
        (jsByte2 (pair_lt h8 h9) (pair_lt h10 h11)).1,
        (jsByte2 (pair_lt h8 h9) (pair_lt h10 h11)).2,
        (jsByte2 (pair_lt h12 h13) (pair_lt h14 h15)).1,
        (jsByte2 (pair_lt h12 h13) (pair_lt h14 h15)).2,
        jsByte0 (pair_lt h16 h17),
        jsByte0 (pair_lt h18 h19),
        jsByte0 (pair_lt h20 h21),
        jsByte0 (pair_lt h22 h23),
        jsByte0 (pair_lt h24 h25),
        jsByte0 (pair_lt h26 h27),
        jsByte0 (pair_lt h28 h29),
        jsByte0 (pair_lt h30 h31)]
    simp only [List.map_cons, List.map_nil]
    rw [byteToHexPair_eq h0 h1, byteToHexPair_eq h2 h3, byteToHexPair_eq h4 h5, byteToHexPair_eq h6 h7, byteToHexPair_eq h8 h9, byteToHexPair_eq h10 h11, byteToHexPair_eq h12 h13, byteToHexPair_eq h14 h15, byteToHexPair_eq h16 h17, byteToHexPair_eq h18 h19, byteToHexPair_eq h20 h21, byteToHexPair_eq h22 h23, byteToHexPair_eq h24 h25, byteToHexPair_eq h26 h27, byteToHexPair_eq h28 h29, byteToHexPair_eq h30 h31]
    rfl


/-- C6.  For every well-formed GUID string (32 hex digits in the dashed
8-4-4-4-12 shape, either case) and every objectId, parsing the record
built by `createGuidRecord` yields the lowercased input string — also when
the first 4-byte group or the 2-byte groups decode to negative Int32/Int16
member values. -/
theorem guid_roundtrip (s : JStr) (hwf : wellFormedGuid s = true) (oid : Int) :
    parseGuid (createGuidRecord oid s) = some (jsToLower s) := by
  obtain _ | ⟨x0, s⟩ := s
  · exact Bool.noConfusion hwf
  obtain _ | ⟨x1, s⟩ := s
  · exact Bool.noConfusion hwf
  obtain _ | ⟨x2, s⟩ := s
  · exact Bool.noConfusion hwf
  obtain _ | ⟨x3, s⟩ := s
  · exact Bool.noConfusion hwf
  obtain _ | ⟨x4, s⟩ := s
  · exact Bool.noConfusion hwf
  obtain _ | ⟨x5, s⟩ := s
  · exact Bool.noConfusion hwf
  obtain _ | ⟨x6, s⟩ := s
  · exact Bool.noConfusion hwf
  obtain _ | ⟨x7, s⟩ := s
  · exact Bool.noConfusion hwf
  obtain _ | ⟨y1, s⟩ := s
  · exact Bool.noConfusion hwf
  obtain _ | ⟨x8, s⟩ := s
  · exact Bool.noConfusion hwf
  obtain _ | ⟨x9, s⟩ := s
  · exact Bool.noConfusion hwf
  obtain _ | ⟨x10, s⟩ := s
  · exact Bool.noConfusion hwf
  obtain _ | ⟨x11, s⟩ := s
  · exact Bool.noConfusion hwf
  obtain _ | ⟨y2, s⟩ := s
  · exact Bool.noConfusion hwf
  obtain _ | ⟨x12, s⟩ := s
  · exact Bool.noConfusion hwf
  obtain _ | ⟨x13, s⟩ := s
  · exact Bool.noConfusion hwf
  obtain _ | ⟨x14, s⟩ := s
  · exact Bool.noConfusion hwf
  obtain _ | ⟨x15, s⟩ := s
  · exact Bool.noConfusion hwf
  obtain _ | ⟨y3, s⟩ := s
  · exact Bool.noConfusion hwf
  obtain _ | ⟨x16, s⟩ := s
  · exact Bool.noConfusion hwf
  obtain _ | ⟨x17, s⟩ := s
  · exact Bool.noConfusion hwf
  obtain _ | ⟨x18, s⟩ := s
  · exact Bool.noConfusion hwf
  obtain _ | ⟨x19, s⟩ := s
  · exact Bool.noConfusion hwf
  obtain _ | ⟨y4, s⟩ := s
  · exact Bool.noConfusion hwf
  obtain _ | ⟨x20, s⟩ := s
  · exact Bool.noConfusion hwf
  obtain _ | ⟨x21, s⟩ := s
  · exact Bool.noConfusion hwf
  obtain _ | ⟨x22, s⟩ := s
  · exact Bool.noConfusion hwf
  obtain _ | ⟨x23, s⟩ := s
  · exact Bool.noConfusion hwf
  obtain _ | ⟨x24, s⟩ := s
  · exact Bool.noConfusion hwf
  obtain _ | ⟨x25, s⟩ := s
  · exact Bool.noConfusion hwf
  obtain _ | ⟨x26, s⟩ := s
  · exact Bool.noConfusion hwf
  obtain _ | ⟨x27, s⟩ := s
  · exact Bool.noConfusion hwf
  obtain _ | ⟨x28, s⟩ := s
  · exact Bool.noConfusion hwf
  obtain _ | ⟨x29, s⟩ := s
  · exact Bool.noConfusion hwf
  obtain _ | ⟨x30, s⟩ := s
  · exact Bool.noConfusion hwf
  obtain _ | ⟨x31, s⟩ := s
  · exact Bool.noConfusion hwf
  obtain _ | ⟨z, s⟩ := s
  swap
  · exact Bool.noConfusion hwf
  simp only [wellFormedGuid, Bool.and_eq_true, beq_iff_eq, List.all_cons,
    List.all_nil, and_true] at hwf
  obtain ⟨⟨⟨⟨hy1, hy2⟩, hy3⟩, hy4⟩, hx0, hx1, hx2, hx3, hx4, hx5, hx6, hx7, hx8, hx9, hx10, hx11, hx12, hx13, hx14, hx15, hx16, hx17, hx18, hx19, hx20, hx21, hx22, hx23, hx24, hx25, hx26, hx27, hx28, hx29, hx30, hx31⟩ := hwf
  subst hy1
  subst hy2
  subst hy3
  subst hy4
  unfold createGuidRecord
  have e0 := hexDigit_ne_dash hx0
  have e1 := hexDigit_ne_dash hx1
  have e2 := hexDigit_ne_dash hx2
  have e3 := hexDigit_ne_dash hx3
  have e4 := hexDigit_ne_dash hx4
  have e5 := hexDigit_ne_dash hx5
  have e6 := hexDigit_ne_dash hx6
  have e7 := hexDigit_ne_dash hx7
  have e8 := hexDigit_ne_dash hx8
  have e9 := hexDigit_ne_dash hx9
  have e10 := hexDigit_ne_dash hx10
  have e11 := hexDigit_ne_dash hx11
  have e12 := hexDigit_ne_dash hx12
  have e13 := hexDigit_ne_dash hx13
  have e14 := hexDigit_ne_dash hx14
  have e15 := hexDigit_ne_dash hx15
  have e16 := hexDigit_ne_dash hx16
  have e17 := hexDigit_ne_dash hx17
  have e18 := hexDigit_ne_dash hx18
  have e19 := hexDigit_ne_dash hx19
  have e20 := hexDigit_ne_dash hx20
  have e21 := hexDigit_ne_dash hx21
  have e22 := hexDigit_ne_dash hx22
  have e23 := hexDigit_ne_dash hx23
  have e24 := hexDigit_ne_dash hx24
  have e25 := hexDigit_ne_dash hx25
  have e26 := hexDigit_ne_dash hx26
  have e27 := hexDigit_ne_dash hx27
  have e28 := hexDigit_ne_dash hx28
  have e29 := hexDigit_ne_dash hx29
  have e30 := hexDigit_ne_dash hx30
  have e31 := hexDigit_ne_dash hx31
  simp only [List.filter_cons, e0, e1, e2, e3, e4, e5, e6, e7, e8, e9, e10, e11, e12, e13, e14, e15, e16, e17, e18, e19, e20, e21, e22, e23, e24, e25, e26, e27, e28, e29, e30, e31, bne_self_eq_false,
    eq_self_iff_true, if_true, Bool.false_eq_true, if_false, List.filter_nil]
  rw [createGuidAux_parse oid x0 x1 x2 x3 x4 x5 x6 x7 x8 x9 x10 x11 x12 x13 x14 x15 x16 x17 x18 x19 x20 x21 x22 x23 x24 x25 x26 x27 x28 x29 x30 x31 hx0 hx1 hx2 hx3 hx4 hx5 hx6 hx7 hx8 hx9 hx10 hx11 hx12 hx13 hx14 hx15 hx16 hx17 hx18 hx19 hx20 hx21 hx22 hx23 hx24 hx25 hx26 hx27 hx28 hx29 hx30 hx31]
  rfl


/-- The GUID string `FFFFFFFF-FFFF-4FFF-FFFF-FFFFFFFFFFFF` (uppercase, so
lowercasing is visible, and with `_a = -1`, `_b = -1` negative). -/
def guidWitnessStr : JStr :=
  [70,70,70,70,70,70,70,70,45,70,70,70,70,45,52,70,70,70,45,70,70,70,70,45,
   70,70,70,70,70,70,70,70,70,70,70,70]

/-- Witness for C6 at a concrete uppercase GUID whose first groups decode to
negative Int32/Int16 values. -/
theorem guid_roundtrip_witness :
    wellFormedGuid guidWitnessStr = true ∧
    parseGuid (createGuidRecord 7 guidWitnessStr) = some (jsToLower guidWitnessStr) :=
  ⟨rfl, guid_roundtrip guidWitnessStr rfl 7⟩

/-! ## BinaryWriter helpers used by the encoder -/

/-- 2^64, for the 8-byte writes. -/
def u64 : Nat := 18446744073709551616

/-- JS `BigInt64Array`-style bit pattern of an integer. -/
def toUInt64 (x : Int) : Nat := (x % (u64 : Int)).toNat

/-- The eight little-endian bytes of `setBigInt64`/`setBigUint64`. -/
def int64le (x : Int) : List Nat :=
  [toUInt64 x % 256, toUInt64 x / 256 % 256, toUInt64 x / 65536 % 256,
   toUInt64 x / 16777216 % 256, toUInt64 x / 4294967296 % 256,
   toUInt64 x / 1099511627776 % 256, toUInt64 x / 281474976710656 % 256,
   toUInt64 x / 72057594037927936 % 256]

/-- `BinaryWriter.writeDecimal`: sixteen bytes parsed from the 32-char hex
string two digits at a time (a short or malformed slice parses to `NaN`,
which a byte store turns into 0 — `parseIntHex` already yields 0 there). -/
def decimalBytes (s : JStr) : List Nat :=
  (List.range 16).map (fun i => parseIntHex ((s.drop (2 * i)).take 2) % 256)

/-- `NrbfEncoder.writePrimitiveValue`: a `null` value writes nothing; the
known primitive types dispatch to the matching `BinaryWriter` method; an
unknown type byte falls through the `switch` writing nothing.  Combinations
whose byte image would go through JS float/number coercions that this model
does not represent (e.g. a string where a number is expected) are rejected
with `none`; the decoder never produces them. -/
def writePrimitiveValue (value : PrimVal) (t : Nat) : Option (List Nat) :=
  match value with
  | .pNull => some []
  | _ =>
    match t with
    | 1 => match value with | .pBool b => some [if b then 1 else 0] | _ => none
    | 2 => match value with | .pNum n => some [toUInt32 n % 256] | _ => none
    | 10 => match value with | .pNum n => some [toUInt32 n % 256] | _ => none
    | 3 => match value with | .pStr s => some [s.headD 0 % 256] | _ => none
    | 7 => match value with | .pNum n => some (int16le n) | _ => none
    | 14 => match value with | .pNum n => some (int16le n) | _ => none
    | 8 => match value with | .pNum n => some (int32le n) | _ => none
    | 15 => match value with | .pNum n => some (int32le n) | _ => none
    | 9 => match value with | .pNum n => some (int64le n) | _ => none
    | 16 => match value with | .pNum n => some (int64le n) | _ => none
    | 11 => match value with | .pF32 bytes => some bytes | _ => none
    | 6 => match value with | .pF64 bytes => some bytes | _ => none
    | 5 => match value with | .pStr s => some (decimalBytes s) | _ => none
    | 13 => match value with | .pNum n => some (int64le n) | _ => none
    | 12 => match value with | .pNum n => some (int64le n) | _ => none
    | 18 => match value with | .pStr s => some (writeLengthPrefixedString s) | _ => none
    | _ => some []

/-- `NrbfEncoder.writeClassInfo`. -/
def writeClassInfo (classInfo : ClassInfo) : List Nat :=
  int32le classInfo.objectId ++ writeLengthPrefixedString classInfo.name ++
    int32le classInfo.memberCount ++
    (classInfo.memberNames.map writeLengthPrefixedString).flatten

/-- `NrbfEncoder.writeAdditionalTypeInfo` (also the per-member body of
`writeMemberTypeInfo`, which has the same cases). -/
def writeAdditionalTypeInfo : AdditionalTypeInfo → List Nat
  | .aPrimitive pt => [pt % 256]
  | .aSystemClass className => writeLengthPrefixedString className
  | .aClass className libraryId =>
      writeLengthPrefixedString className ++ int32le libraryId
  | .aNone => []

/-- `NrbfEncoder.writeMemberTypeInfo`: all the BinaryType bytes, then the
additional info of each member. -/
def writeMemberTypeInfo (memberTypeInfo : MemberTypeInfo) : List Nat :=
  memberTypeInfo.binaryTypeEnums.map (fun bt => bt % 256) ++
    (memberTypeInfo.additionalInfos.map writeAdditionalTypeInfo).flatten

/-- The per-element loop of `encodeArraySinglePrimitive`. -/
def encodePrimElems (pt : Nat) : List PrimVal → Option (List Nat)
  | [] => some []
  | v :: rest => do
      let b ← writePrimitiveValue v pt
      let bs ← encodePrimElems pt rest
      pure (b ++ bs)

/-- `Set.add` of `writtenRecords`. -/
def insertWritten (i : Int) (w : List Int) : List Int := if i ∈ w then w else i :: w

theorem list_sizeOf_pos {α : Type} [SizeOf α] (l : List α) : 0 < sizeOf l := by
  cases l <;> simp_arith

theorem sizeOf_getValue_le (members : List (JStr × Val)) (name : JStr) :
    sizeOf (getValue members name) ≤ sizeOf members := by
  unfold getValue
  induction members with
  | nil => simp [mapGet]
  | cons kv rest ih =>
    obtain ⟨k, v⟩ := kv
    unfold mapGet
    by_cases h : k = name
    · rw [if_pos h]
      simp <;> omega
    · rw [if_neg h]
      have hr : sizeOf ((k, v) :: rest) = 1 + (1 + sizeOf k + sizeOf v) + sizeOf rest := by
        simp <;> omega
      omega

theorem classInfo_sizeOf_memberNames_lt (info : ClassInfo) :
    sizeOf info.memberNames < sizeOf info := by
  obtain ⟨a, b, c, d⟩ := info
  simp <;> omega

/-! ## The encoder (`NrbfEncoder`)

`encodeRecordAux w r` returns the bytes `r` appends to the writer together
with the updated `writtenRecords` set (the JS writer accumulates chunks;
returning the produced chunk and concatenating at each call site is the
same byte stream).  A JS `throw` (bare primitive in `writeObjectValue`, or
a missing `memberTypeInfo!` dereference) is `none`. -/

mutual

/-- `NrbfEncoder.encodeRecord`: a record whose `objectId` is truthy
(non-null and nonzero) and already in the written set emits nothing; else
dispatch by `instanceof` (a value matching no branch — header, message end,
or a primitive — emits nothing), and afterwards add a truthy objectId to
the set. -/
def encodeRecordAux (written : List Int) (record : Val) :
    Option (List Nat × List Int) :=
  if (match objectId record with
      | some i => decide (i ≠ 0) && decide (i ∈ written)
      | none => false) then some ([], written)
  else
    (do
      let (bytes, w') ←
        match record with
        | .cls info mti libId rt members => do
            -- encodeClassRecord: lead byte, ClassInfo, MemberTypeInfo for
            -- kinds 4/5 (a null memberTypeInfo! dereference throws),
            -- libraryId for kinds 3/5 (writeInt32 of null stores 0),
            -- then the member values in declared order.
            let mtiBytes ←
              if rt = 5 ∨ rt = 4 then
                match mti with
                | some m => some (writeMemberTypeInfo m)
                | none => none
              else some []
            let libBytes :=
              if rt = 5 ∨ rt = 3 then
                match libId with
                | some x => int32le x
                | none => int32le 0
              else []
            let (mv, w') ← encodeMemberNames written info.memberNames members
            some ([rt % 256] ++ writeClassInfo info ++ mtiBytes ++ libBytes ++ mv, w')
        | .binArray id k rank lengths lowerBounds te ai elems => do
            let (ev, w') ← encodeElems written elems
            some ([7] ++ int32le id ++ [k % 256] ++ int32le rank ++
              (lengths.map int32le).flatten ++
              (match lowerBounds with
               | some bs => (bs.map int32le).flatten
               | none => []) ++
              [te % 256] ++ writeAdditionalTypeInfo ai ++ ev, w')
        | .arrPrim id len pt elems => do
            let ev ← encodePrimElems pt elems
            some ([15] ++ int32le id ++ int32le len ++ [pt % 256] ++ ev, written)
        | .arrObj id len elems => do
            let (ev, w') ← encodeElems written elems
            some ([16] ++ int32le id ++ int32le len ++ ev, w')
        | .arrStr id len elems => do
            let (ev, w') ← encodeElems written elems
            some ([17] ++ int32le id ++ int32le len ++ ev, w')
        | .objStr id s =>
            some ([6] ++ int32le id ++ writeLengthPrefixedString s, written)
        | .library libId name =>
            some ([12] ++ int32le libId ++ writeLengthPrefixedString name, written)
        | .memberPrim pt v => do
            let pv ← writePrimitiveValue v pt
            some ([8] ++ [pt % 256] ++ pv, written)
        | .ref idRef => some ([9] ++ int32le idRef, written)
        | .onull => some ([10], written)
        | .onullMultiple count => some ([14] ++ int32le count, written)
        | .onullMultiple256 count => some ([13] ++ [count % 256], written)
        | _ => some ([], written)
      let w'' :=
        match objectId record with
        | some i => if i ≠ 0 then insertWritten i w' else w'
        | none => w'
      some (bytes, w''))
termination_by sizeOf record
decreasing_by
  all_goals simp_wf
  all_goals first
    | (have h3 := classInfo_sizeOf_memberNames_lt info
       omega)
    | omega

/-- The member-value loop of `encodeClassRecord`: iterate the declared
names, fetching each value from the member map. -/
def encodeMemberNames (written : List Int) (names : List JStr)
    (members : List (JStr × Val)) : Option (List Nat × List Int) :=
  match names with
  | [] => some ([], written)
  | name :: rest => do
      let (b, w1) ← writeObjectValue written (getValue members name)
      let (bs, w2) ← encodeMemberNames w1 rest members
      some (b ++ bs, w2)
termination_by sizeOf names + sizeOf members
decreasing_by
  all_goals simp_wf
  all_goals first
    | (have h1 := sizeOf_getValue_le members name
       omega)
    | omega

/-- The element loop of the object/string array encoders. -/
def encodeElems (written : List Int) : List Val → Option (List Nat × List Int)
  | [] => some ([], written)
  | e :: rest => do
      let (b, w1) ← writeObjectValue written (some e)
      let (bs, w2) ← encodeElems w1 rest
      some (b ++ bs, w2)
termination_by es => sizeOf es
decreasing_by
  all_goals simp_wf
  all_goals (have h2 := list_sizeOf_pos rest
             omega)

/-- `NrbfEncoder.writeObjectValue`: `null`/`undefined` emit one ObjectNull
byte, records recurse into `encodeRecord`, a bare boolean is written
directly, and a bare number or string throws. -/
def writeObjectValue (written : List Int) (value : Option Val) :
    Option (List Nat × List Int) :=
  match value with
  | none => some ([10], written)
  | some (.prim .pNull) => some ([10], written)
  | some (.prim (.pBool b)) => some ([if b then 1 else 0], written)
  | some (.prim _) => none
  | some v => encodeRecordAux written v
termination_by sizeOf value
decreasing_by
  all_goals simp_wf
  all_goals omega

end

/-- `NrbfEncoder.encode`: header (lead byte 0, rootId, headerId −1,
version 1.0), the root record, then MessageEnd.  The rootId defaults to the
root's objectId and then to 1 (the JS `??` keeps a zero objectId). -/
def encode (root : Val) (rootId : Option Int) : Option (List Nat) := do
  let actualRootId :=
    match rootId with
    | some r => r
    | none =>
      match objectId root with
      | some i => i
      | none => 1
  let (bytes, _) ← encodeRecordAux [] root
  some ([0] ++ int32le actualRootId ++ int32le (-1) ++ int32le 1 ++ int32le 0 ++
    bytes ++ [11])

/-- `NrbfUtils.startsWithPayloadHeader`: false when shorter than 17 bytes or
byte 0 is nonzero; then the fixed 8-iteration loop compares bytes 9..16
against `expectedSuffix = [1,0,0,0,0,0,0,0]` (written out here unrolled). -/
def startsWithPayloadHeader (buffer : List Nat) : Bool :=
  if buffer.length < 17 then false
  else if buffer.getD 0 0 != 0 then false
  else
    buffer.getD 9 0 == 1 && buffer.getD 10 0 == 0 && buffer.getD 11 0 == 0 &&
    buffer.getD 12 0 == 0 && buffer.getD 13 0 == 0 && buffer.getD 14 0 == 0 &&
    buffer.getD 15 0 == 0 && buffer.getD 16 0 == 0

/-- Characterization of the header sniff. -/
theorem sniff_iff (b : List Nat) :
    startsWithPayloadHeader b = true ↔
      (17 ≤ b.length ∧ b.getD 0 0 = 0 ∧
       (b.drop 9).take 8 = [1,0,0,0,0,0,0,0]) := by
  obtain _ | ⟨c0, b⟩ := b
  · simp [startsWithPayloadHeader]
  obtain _ | ⟨c1, b⟩ := b
  · simp [startsWithPayloadHeader]
  obtain _ | ⟨c2, b⟩ := b
  · simp [startsWithPayloadHeader]
  obtain _ | ⟨c3, b⟩ := b
  · simp [startsWithPayloadHeader]
  obtain _ | ⟨c4, b⟩ := b
  · simp [startsWithPayloadHeader]
  obtain _ | ⟨c5, b⟩ := b
  · simp [startsWithPayloadHeader]
  obtain _ | ⟨c6, b⟩ := b
  · simp [startsWithPayloadHeader]
  obtain _ | ⟨c7, b⟩ := b
  · simp [startsWithPayloadHeader]
  obtain _ | ⟨c8, b⟩ := b
  · simp [startsWithPayloadHeader]
  obtain _ | ⟨c9, b⟩ := b
  · simp [startsWithPayloadHeader]
  obtain _ | ⟨c10, b⟩ := b
  · simp [startsWithPayloadHeader]
  obtain _ | ⟨c11, b⟩ := b
  · simp [startsWithPayloadHeader]
  obtain _ | ⟨c12, b⟩ := b
  · simp [startsWithPayloadHeader]
  obtain _ | ⟨c13, b⟩ := b
  · simp [startsWithPayloadHeader]
  obtain _ | ⟨c14, b⟩ := b
  · simp [startsWithPayloadHeader]
  obtain _ | ⟨c15, b⟩ := b
  · simp [startsWithPayloadHeader]
  obtain _ | ⟨c16, b⟩ := b
  · simp [startsWithPayloadHeader]
  have hlen : ¬ ((c0 :: c1 :: c2 :: c3 :: c4 :: c5 :: c6 :: c7 :: c8 :: c9 :: c10 :: c11 :: c12 :: c13 :: c14 :: c15 :: c16 :: b).length < 17) := by simp
  have hlen2 : 17 ≤ (c0 :: c1 :: c2 :: c3 :: c4 :: c5 :: c6 :: c7 :: c8 :: c9 :: c10 :: c11 :: c12 :: c13 :: c14 :: c15 :: c16 :: b).length := by simp
  unfold startsWithPayloadHeader
  rw [if_neg hlen]
  have hg0 : (c0 :: c1 :: c2 :: c3 :: c4 :: c5 :: c6 :: c7 :: c8 :: c9 :: c10 :: c11 :: c12 :: c13 :: c14 :: c15 :: c16 :: b).getD 0 0 = c0 := rfl
  have hg9 : (c0 :: c1 :: c2 :: c3 :: c4 :: c5 :: c6 :: c7 :: c8 :: c9 :: c10 :: c11 :: c12 :: c13 :: c14 :: c15 :: c16 :: b).getD 9 0 = c9 := rfl
  have hg10 : (c0 :: c1 :: c2 :: c3 :: c4 :: c5 :: c6 :: c7 :: c8 :: c9 :: c10 :: c11 :: c12 :: c13 :: c14 :: c15 :: c16 :: b).getD 10 0 = c10 := rfl
  have hg11 : (c0 :: c1 :: c2 :: c3 :: c4 :: c5 :: c6 :: c7 :: c8 :: c9 :: c10 :: c11 :: c12 :: c13 :: c14 :: c15 :: c16 :: b).getD 11 0 = c11 := rfl
  have hg12 : (c0 :: c1 :: c2 :: c3 :: c4 :: c5 :: c6 :: c7 :: c8 :: c9 :: c10 :: c11 :: c12 :: c13 :: c14 :: c15 :: c16 :: b).getD 12 0 = c12 := rfl
  have hg13 : (c0 :: c1 :: c2 :: c3 :: c4 :: c5 :: c6 :: c7 :: c8 :: c9 :: c10 :: c11 :: c12 :: c13 :: c14 :: c15 :: c16 :: b).getD 13 0 = c13 := rfl
  have hg14 : (c0 :: c1 :: c2 :: c3 :: c4 :: c5 :: c6 :: c7 :: c8 :: c9 :: c10 :: c11 :: c12 :: c13 :: c14 :: c15 :: c16 :: b).getD 14 0 = c14 := rfl
  have hg15 : (c0 :: c1 :: c2 :: c3 :: c4 :: c5 :: c6 :: c7 :: c8 :: c9 :: c10 :: c11 :: c12 :: c13 :: c14 :: c15 :: c16 :: b).getD 15 0 = c15 := rfl
  have hg16 : (c0 :: c1 :: c2 :: c3 :: c4 :: c5 :: c6 :: c7 :: c8 :: c9 :: c10 :: c11 :: c12 :: c13 :: c14 :: c15 :: c16 :: b).getD 16 0 = c16 := rfl
  have hdt : ((c0 :: c1 :: c2 :: c3 :: c4 :: c5 :: c6 :: c7 :: c8 :: c9 :: c10 :: c11 :: c12 :: c13 :: c14 :: c15 :: c16 :: b).drop 9).take 8 = [c9,c10,c11,c12,c13,c14,c15,c16] := rfl
  rw [hg0, hg9, hg10, hg11, hg12, hg13, hg14, hg15, hg16, hdt]
  by_cases h0 : c0 = 0
  · subst h0
    simp [hlen2, and_assoc]
  · have : (c0 != 0) = true := by simp [bne_iff_ne]; exact h0
    rw [if_pos this]
    simp [h0]


/-- Every successful `encode` output passes the header sniff. -/
theorem sniff_encode (root : Val) (rootId : Option Int) (b : List Nat)
    (h : encode root rootId = some b) : startsWithPayloadHeader b = true := by
  unfold encode at h
  cases he : encodeRecordAux [] root with
  | none => rw [he] at h; simp at h
  | some p =>
    obtain ⟨bytes, w⟩ := p
    rw [he] at h
    simp at h
    obtain ⟨q0, q1, q2, q3, hq⟩ :
        ∃ q0 q1 q2 q3,
          int32le (match rootId with
            | some r => r
            | none => match objectId root with | some i => i | none => 1) =
            [q0, q1, q2, q3] := ⟨_, _, _, _, rfl⟩
    rw [hq] at h
    rw [sniff_iff, ← h]
    refine ⟨?_, rfl, rfl⟩
    have hl : ∀ x : Int, (int32le x).length = 4 := fun x => rfl
    simp [hl]
    omega

/-- C7.  (1) Every record graph accepted by `NrbfEncoder.encode` produces a
buffer on which `NrbfUtils.startsWithPayloadHeader` returns true.  (2) In
general the sniff returns true iff the buffer has at least 17 bytes, byte 0
is 0, and bytes 9..17 equal `[1,0,0,0,0,0,0,0]`. -/
theorem payloadHeader_claim :
    (∀ (root : Val) (rootId : Option Int) (b : List Nat),
        encode root rootId = some b → startsWithPayloadHeader b = true) ∧
    (∀ b : List Nat,
        startsWithPayloadHeader b = true ↔
          (17 ≤ b.length ∧ b.getD 0 0 = 0 ∧
           (b.drop 9).take 8 = [1,0,0,0,0,0,0,0])) :=
  ⟨fun root rootId b h => sniff_encode root rootId b h, fun b => sniff_iff b⟩

/-- Witness for C7: the encoding of a single string record passes the
sniff, and the sniff evaluates to true on those concrete bytes. -/
theorem payloadHeader_claim_witness :
    encode (.objStr 1 [104]) none =
      some [0, 1, 0, 0, 0, 255, 255, 255, 255, 1, 0, 0, 0, 0, 0, 0, 0,
            6, 1, 0, 0, 0, 1, 104, 11] ∧
    startsWithPayloadHeader
      [0, 1, 0, 0, 0, 255, 255, 255, 255, 1, 0, 0, 0, 0, 0, 0, 0,
       6, 1, 0, 0, 0, 1, 104, 11] = true := by
  have henc : encode (.objStr 1 [104]) none =
      some [0, 1, 0, 0, 0, 255, 255, 255, 255, 1, 0, 0, 0, 0, 0, 0, 0,
            6, 1, 0, 0, 0, 1, 104, 11] := by
    unfold encode
    rw [encodeRecordAux]
    simp [objectId, insertWritten, writeLengthPrefixedString, writeVariableLengthInt_eq]
    rfl
  exact ⟨henc, payloadHeader_claim.1 (.objStr 1 [104]) none _ henc⟩

theorem zero_mem_addStep (i : Int) (w1 : List Int) :
    (0 ∈ (if i = 0 then w1 else insertWritten i w1)) ↔ 0 ∈ w1 := by
  by_cases h : i = 0
  · simp [h]
  · rw [if_neg h]
    unfold insertWritten
    split_ifs with hw
    · exact Iff.rfl
    · constructor
      · intro hm
        rcases List.mem_cons.mp hm with h0 | h0
        · exact absurd h0.symm h
        · exact h0
      · intro hm
        exact List.mem_cons.mpr (Or.inr hm)

/-- `encodeRecord` never adds 0 to the written set: afterwards 0 is in the
set exactly when it was before. -/
theorem encodeRecordAux_zero (w : List Int) (r : Val) :
    ∀ b w2, encodeRecordAux w r = some (b, w2) → (0 ∈ w2 ↔ 0 ∈ w) := by
  refine encodeRecordAux.induct
    (fun w r => ∀ b w2, encodeRecordAux w r = some (b, w2) → (0 ∈ w2 ↔ 0 ∈ w))
    (fun w es => ∀ b w2, encodeElems w es = some (b, w2) → (0 ∈ w2 ↔ 0 ∈ w))
    (fun w v => ∀ b w2, writeObjectValue w v = some (b, w2) → (0 ∈ w2 ↔ 0 ∈ w))
    (fun w names members =>
      ∀ b w2, encodeMemberNames w names members = some (b, w2) → (0 ∈ w2 ↔ 0 ∈ w))
    ?_ ?_ ?_ ?_ ?_ ?_ ?_ ?_ ?_ ?_ ?_ ?_ ?_ ?_ ?_ ?_ ?_ ?_ ?_ ?_ ?_ ?_ ?_ ?_ ?_ w r
  · intro written record hskip b w2 h
    rw [encodeRecordAux] at h
    rw [if_pos hskip] at h
    simp at h
    obtain ⟨hb, hw⟩ := h
    subst hw
    exact Iff.rfl
  · intro written info libId rt members hrt m hskip IH b w2 h
    rw [encodeRecordAux] at h
    simp only [objectId] at h hskip
    rw [if_neg hskip] at h
    rw [if_pos hrt] at h
    cases hL : encodeMemberNames written info.memberNames members with
    | none => rw [hL] at h; simp at h
    | some p =>
      obtain ⟨mv, w1⟩ := p
      rw [hL] at h
      simp at h
      obtain ⟨hb, hw⟩ := h
      subst hw
      exact (zero_mem_addStep info.objectId w1).trans (IH mv w1 hL)
  · intro written info libId rt members hrt hskip IH b w2 h
    rw [encodeRecordAux] at h
    simp only [objectId] at h hskip
    rw [if_neg hskip] at h
    rw [if_pos hrt] at h
    simp at h
  · intro written info mti libId rt members hrt hskip IH b w2 h
    rw [encodeRecordAux] at h
    simp only [objectId] at h hskip
    rw [if_neg hskip] at h
    rw [if_neg hrt] at h
    cases hL : encodeMemberNames written info.memberNames members with
    | none => rw [hL] at h; simp at h
    | some p =>
      obtain ⟨mv, w1⟩ := p
      rw [hL] at h
      simp at h
      obtain ⟨hb, hw⟩ := h
      subst hw
      exact (zero_mem_addStep info.objectId w1).trans (IH mv w1 hL)
  · intro written id k rank lengths lowerBounds te ai elems hskip IH b w2 h
    rw [encodeRecordAux] at h
    simp only [objectId] at h hskip
    rw [if_neg hskip] at h
    cases hL : encodeElems written elems with
    | none => rw [hL] at h; simp at h
    | some p =>
      obtain ⟨mv, w1⟩ := p
      rw [hL] at h
      simp at h
      obtain ⟨hb, hw⟩ := h
      subst hw
      exact (zero_mem_addStep id w1).trans (IH mv w1 hL)
  · intro written id len pt elems hskip b w2 h
    rw [encodeRecordAux] at h
    simp only [objectId] at h hskip
    rw [if_neg hskip] at h
    cases hP : encodePrimElems pt elems with
    | none => rw [hP] at h; simp at h
    | some ev =>
      rw [hP] at h
      simp at h
      obtain ⟨hb, hw⟩ := h
      subst hw
      exact zero_mem_addStep id written
  · intro written id len elems hskip IH b w2 h
    rw [encodeRecordAux] at h
    simp only [objectId] at h hskip
    rw [if_neg hskip] at h
    cases hL : encodeElems written elems with
    | none => rw [hL] at h; simp at h
    | some p =>
      obtain ⟨mv, w1⟩ := p
      rw [hL] at h
      simp at h
      obtain ⟨hb, hw⟩ := h
      subst hw
      exact (zero_mem_addStep id w1).trans (IH mv w1 hL)
  · intro written id len elems hskip IH b w2 h
    rw [encodeRecordAux] at h
    simp only [objectId] at h hskip
    rw [if_neg hskip] at h
    cases hL : encodeElems written elems with
    | none => rw [hL] at h; simp at h
    | some p =>
      obtain ⟨mv, w1⟩ := p
      rw [hL] at h
      simp at h
      obtain ⟨hb, hw⟩ := h
      subst hw
      exact (zero_mem_addStep id w1).trans (IH mv w1 hL)
  · intro written id s hskip b w2 h
    rw [encodeRecordAux] at h
    simp only [objectId] at h hskip
    rw [if_neg hskip] at h
    simp at h
    obtain ⟨hb, hw⟩ := h
    subst hw
    exact zero_mem_addStep id written
  · intro written libId name hskip b w2 h
    rw [encodeRecordAux] at h
    simp only [objectId] at h hskip
    rw [if_neg hskip] at h
    simp at h
    obtain ⟨hb, hw⟩ := h
    subst hw
    exact zero_mem_addStep libId written
  · intro written pt v hskip b w2 h
    rw [encodeRecordAux] at h
    simp only [objectId] at h hskip
    rw [if_neg hskip] at h
    cases hP : writePrimitiveValue v pt with
    | none => rw [hP] at h; simp at h
    | some pv =>
      rw [hP] at h
      simp at h
      obtain ⟨hb, hw⟩ := h
      subst hw
      exact Iff.rfl
  · intro written idRef hskip b w2 h
    rw [encodeRecordAux] at h
    simp only [objectId] at h hskip
    rw [if_neg hskip] at h
    simp at h
    obtain ⟨hb, hw⟩ := h
    subst hw
    exact Iff.rfl
  · intro written hskip b w2 h
    rw [encodeRecordAux] at h
    simp only [objectId] at h hskip
    rw [if_neg hskip] at h
    simp at h
    obtain ⟨hb, hw⟩ := h
    subst hw
    exact Iff.rfl
  · intro written count hskip b w2 h
    rw [encodeRecordAux] at h
    simp only [objectId] at h hskip
    rw [if_neg hskip] at h
    simp at h
    obtain ⟨hb, hw⟩ := h
    subst hw
    exact Iff.rfl
  · intro written count hskip b w2 h
    rw [encodeRecordAux] at h
    simp only [objectId] at h hskip
    rw [if_neg hskip] at h
    simp at h
    obtain ⟨hb, hw⟩ := h
    subst hw
    exact Iff.rfl
  · intro written record hskip hx1 hx2 hx3 hx4 hx5 hx6 hx7 hx8 hx9 hx10 hx11 hx12 b w2 h
    cases record with
    | prim a0 =>
      rw [encodeRecordAux] at h
      simp only [objectId] at h hskip
      rw [if_neg hskip] at h
      simp at h
      obtain ⟨hb, hw⟩ := h
      subst hw
      exact Iff.rfl
    | header a0 a1 a2 a3 =>
      rw [encodeRecordAux] at h
      simp only [objectId] at h hskip
      rw [if_neg hskip] at h
      simp at h
      obtain ⟨hb, hw⟩ := h
      subst hw
      exact Iff.rfl
    | library a0 a1 =>
      exact absurd rfl (hx7 a0 a1)
    | cls a0 a1 a2 a3 a4 =>
      exact absurd rfl (hx1 a0 a1 a2 a3 a4)
    | binArray a0 a1 a2 a3 a4 a5 a6 a7 =>
      exact absurd rfl (hx2 a0 a1 a2 a3 a4 a5 a6 a7)
    | arrPrim a0 a1 a2 a3 =>
      exact absurd rfl (hx3 a0 a1 a2 a3)
    | arrObj a0 a1 a2 =>
      exact absurd rfl (hx4 a0 a1 a2)
    | arrStr a0 a1 a2 =>
      exact absurd rfl (hx5 a0 a1 a2)
    | objStr a0 a1 =>
      exact absurd rfl (hx6 a0 a1)
    | memberPrim a0 a1 =>
      exact absurd rfl (hx8 a0 a1)
    | ref a0 =>
      exact absurd rfl (hx9 a0)
    | onull =>
      exact absurd rfl hx10
    | onullMultiple a0 =>
      exact absurd rfl (hx11 a0)
    | onullMultiple256 a0 =>
      exact absurd rfl (hx12 a0)
    | msgEnd =>
      rw [encodeRecordAux] at h
      simp only [objectId] at h hskip
      rw [if_neg hskip] at h
      simp at h
      obtain ⟨hb, hw⟩ := h
      subst hw
      exact Iff.rfl
  · intro written b w2 h
    simp only [encodeElems, Option.some.injEq, Prod.mk.injEq] at h
    obtain ⟨hb, hw⟩ := h
    subst hw
    exact Iff.rfl
  · intro written e rest IH1 IH2 b w2 h
    simp only [encodeElems] at h
    cases h1 : writeObjectValue written (some e) with
    | none => rw [h1] at h; simp at h
    | some p =>
      obtain ⟨b1, w1⟩ := p
      rw [h1] at h
      simp at h
      cases h2 : encodeElems w1 rest with
      | none => rw [h2] at h; simp at h
      | some q =>
        obtain ⟨bs, wf⟩ := q
        rw [h2] at h
        simp at h
        obtain ⟨hb, hw⟩ := h
        subst hw
        exact (IH2 w1 bs wf h2).trans (IH1 b1 w1 h1)
  · intro written b w2 h
    simp only [writeObjectValue, Option.some.injEq, Prod.mk.injEq] at h
    obtain ⟨hb, hw⟩ := h
    subst hw
    exact Iff.rfl
  · intro written b w2 h
    simp only [writeObjectValue, Option.some.injEq, Prod.mk.injEq] at h
    obtain ⟨hb, hw⟩ := h
    subst hw
    exact Iff.rfl
  · intro written bb b w2 h
    simp only [writeObjectValue, Option.some.injEq, Prod.mk.injEq] at h
    obtain ⟨hb, hw⟩ := h
    subst hw
    exact Iff.rfl
  · intro written p hne1 hne2 b w2 h
    cases p with
    | pNull => exact absurd rfl hne1
    | pBool bb => exact absurd rfl (hne2 bb)
    | pNum a0 => simp [writeObjectValue] at h
    | pF32 a0 => simp [writeObjectValue] at h
    | pF64 a0 => simp [writeObjectValue] at h
    | pStr a0 => simp [writeObjectValue] at h
  · intro written v hne1 hne2 hne3 IH b w2 h
    cases v with
    | prim a0 =>
      exact absurd rfl (hne3 a0)
    | header a0 a1 a2 a3 =>
      simp only [writeObjectValue] at h
      exact IH b w2 h
    | library a0 a1 =>
      simp only [writeObjectValue] at h
      exact IH b w2 h
    | cls a0 a1 a2 a3 a4 =>
      simp only [writeObjectValue] at h
      exact IH b w2 h
    | binArray a0 a1 a2 a3 a4 a5 a6 a7 =>
      simp only [writeObjectValue] at h
      exact IH b w2 h
    | arrPrim a0 a1 a2 a3 =>
      simp only [writeObjectValue] at h
      exact IH b w2 h
    | arrObj a0 a1 a2 =>
      simp only [writeObjectValue] at h
      exact IH b w2 h
    | arrStr a0 a1 a2 =>
      simp only [writeObjectValue] at h
      exact IH b w2 h
    | objStr a0 a1 =>
      simp only [writeObjectValue] at h
      exact IH b w2 h
    | memberPrim a0 a1 =>
      simp only [writeObjectValue] at h
      exact IH b w2 h
    | ref a0 =>
      simp only [writeObjectValue] at h
      exact IH b w2 h
    | onull =>
      simp only [writeObjectValue] at h
      exact IH b w2 h
    | onullMultiple a0 =>
      simp only [writeObjectValue] at h
      exact IH b w2 h
    | onullMultiple256 a0 =>
      simp only [writeObjectValue] at h
      exact IH b w2 h
    | msgEnd =>
      simp only [writeObjectValue] at h
      exact IH b w2 h
  · intro written members b w2 h
    simp only [encodeMemberNames, Option.some.injEq, Prod.mk.injEq] at h
    obtain ⟨hb, hw⟩ := h
    subst hw
    exact Iff.rfl
  · intro written members name rest IH1 IH2 b w2 h
    simp only [encodeMemberNames] at h
    cases h1 : writeObjectValue written (getValue members name) with
    | none => rw [h1] at h; simp at h
    | some p =>
      obtain ⟨b1, w1⟩ := p
      rw [h1] at h
      simp at h
      cases h2 : encodeMemberNames w1 rest members with
      | none => rw [h2] at h; simp at h
      | some q =>
        obtain ⟨bs, wf⟩ := q
        rw [h2] at h
        simp at h
        obtain ⟨hb, hw⟩ := h
        subst hw
        exact (IH2 w1 bs wf h2).trans (IH1 b1 w1 h1)

theorem mem_insertWritten (i : Int) (w : List Int) : i ∈ insertWritten i w := by
  unfold insertWritten
  split_ifs with h
  · exact h
  · exact List.mem_cons_self i w

theorem encodeRecordAux_skip (w : List Int) (r : Val) (i : Int)
    (hid : objectId r = some i) (hne : i ≠ 0) (hmem : i ∈ w) :
    encodeRecordAux w r = some ([], w) := by
  have hc : (match objectId r with
      | some j => decide (j ≠ 0) && decide (j ∈ w)
      | none => false) = true := by
    rw [hid]
    simp [hne, hmem]
  rw [encodeRecordAux, if_pos hc]

theorem encodeRecordAux_emit (w : List Int) (r : Val) (i : Int)
    (hid : objectId r = some i) (hsk : i = 0 ∨ i ∉ w) :
    ∀ b w2, encodeRecordAux w r = some (b, w2) →
      b ≠ [] ∧ ∃ w1, w2 = if i = 0 then w1 else insertWritten i w1 := by
  intro b w2 h
  cases r with
  | prim a0 =>
    exact Option.noConfusion hid
  | header a0 a1 a2 a3 =>
    exact Option.noConfusion hid
  | memberPrim a0 a1 =>
    exact Option.noConfusion hid
  | ref a0 =>
    exact Option.noConfusion hid
  | onull =>
    exact Option.noConfusion hid
  | onullMultiple a0 =>
    exact Option.noConfusion hid
  | onullMultiple256 a0 =>
    exact Option.noConfusion hid
  | msgEnd =>
    exact Option.noConfusion hid
  | cls info mti libId rt members =>
    have hi := Option.some.inj hid
    subst hi
    rw [encodeRecordAux] at h
    simp only [objectId] at h
    rw [if_neg (by rcases hsk with h0 | h0 <;> simp [h0])] at h
    by_cases hrt : rt = 5 ∨ rt = 4
    · rw [if_pos hrt] at h
      cases mti with
      | none => simp at h
      | some m =>
        cases hL : encodeMemberNames w info.memberNames members with
        | none => rw [hL] at h; simp at h
        | some p =>
          obtain ⟨mv, w1⟩ := p
          rw [hL] at h
          simp at h
          obtain ⟨hb, hw⟩ := h
          subst hw
          subst hb
          exact ⟨by simp, _, rfl⟩
    · rw [if_neg hrt] at h
      cases hL : encodeMemberNames w info.memberNames members with
      | none => rw [hL] at h; simp at h
      | some p =>
        obtain ⟨mv, w1⟩ := p
        rw [hL] at h
        simp at h
        obtain ⟨hb, hw⟩ := h
        subst hw
        subst hb
        exact ⟨by simp, _, rfl⟩
  | binArray id k rank lengths lowerBounds te ai elems =>
    have hi := Option.some.inj hid
    subst hi
    rw [encodeRecordAux] at h
    simp only [objectId] at h
    rw [if_neg (by rcases hsk with h0 | h0 <;> simp [h0])] at h
    cases hL : encodeElems w elems with
    | none => rw [hL] at h; simp at h
    | some p =>
      obtain ⟨ev, w1⟩ := p
      rw [hL] at h
      simp at h
      obtain ⟨hb, hw⟩ := h
      subst hw
      subst hb
      exact ⟨by simp, _, rfl⟩
  | arrPrim id len pt elems =>
    have hi := Option.some.inj hid
    subst hi
    rw [encodeRecordAux] at h
    simp only [objectId] at h
    rw [if_neg (by rcases hsk with h0 | h0 <;> simp [h0])] at h
    cases hP : encodePrimElems pt elems with
    | none => rw [hP] at h; simp at h
    | some ev =>
      rw [hP] at h
      simp at h
      obtain ⟨hb, hw⟩ := h
      subst hw
      subst hb
      exact ⟨by simp, _, rfl⟩
  | arrObj id len elems =>
    have hi := Option.some.inj hid
    subst hi
    rw [encodeRecordAux] at h
    simp only [objectId] at h
    rw [if_neg (by rcases hsk with h0 | h0 <;> simp [h0])] at h
    cases hL : encodeElems w elems with
    | none => rw [hL] at h; simp at h
    | some p =>
      obtain ⟨ev, w1⟩ := p
      rw [hL] at h
      simp at h
      obtain ⟨hb, hw⟩ := h
      subst hw
      subst hb
      exact ⟨by simp, _, rfl⟩
  | arrStr id len elems =>
    have hi := Option.some.inj hid
    subst hi
    rw [encodeRecordAux] at h
    simp only [objectId] at h
    rw [if_neg (by rcases hsk with h0 | h0 <;> simp [h0])] at h
    cases hL : encodeElems w elems with
    | none => rw [hL] at h; simp at h
    | some p =>
      obtain ⟨ev, w1⟩ := p
      rw [hL] at h
      simp at h
      obtain ⟨hb, hw⟩ := h
      subst hw
      subst hb
      exact ⟨by simp, _, rfl⟩
  | objStr id s =>
    have hi := Option.some.inj hid
    subst hi
    rw [encodeRecordAux] at h
    simp only [objectId] at h
    rw [if_neg (by rcases hsk with h0 | h0 <;> simp [h0])] at h
    simp at h
    obtain ⟨hb, hw⟩ := h
    subst hw
    subst hb
    exact ⟨by simp, _, rfl⟩
  | library libId name =>
    have hi := Option.some.inj hid
    subst hi
    rw [encodeRecordAux] at h
    simp only [objectId] at h
    rw [if_neg (by rcases hsk with h0 | h0 <;> simp [h0])] at h
    simp at h
    obtain ⟨hb, hw⟩ := h
    subst hw
    subst hb
    exact ⟨by simp, _, rfl⟩

/-- C10: `encodeRecord` deduplicates by truthy objectId.  A record whose
objectId is nonzero and already in `writtenRecords` emits nothing; after any
successful encode of a nonzero-id record, its id is in the resulting set
(so later encounters skip).  A record whose objectId is exactly 0 bypasses
both the skip test and the add (JS `record.objectId &&` is falsy for 0): a
successful encode emits its full bytes (nonempty) and leaves membership of
0 in the set unchanged, so it is re-emitted on every encounter. -/
theorem encode_dedup_truthiness :
    (∀ w r i, objectId r = some i → i ≠ 0 → i ∈ w →
        encodeRecordAux w r = some ([], w)) ∧
    (∀ w r i b w2, objectId r = some i → i ≠ 0 →
        encodeRecordAux w r = some (b, w2) → i ∈ w2) ∧
    (∀ w r b w2, objectId r = some 0 →
        encodeRecordAux w r = some (b, w2) →
        b ≠ [] ∧ (0 ∈ w2 ↔ 0 ∈ w)) := by
  refine ⟨fun w r i hid hne hmem => encodeRecordAux_skip w r i hid hne hmem,
    ?_, ?_⟩
  · intro w r i b w2 hid hne h
    by_cases hmem : i ∈ w
    · rw [encodeRecordAux_skip w r i hid hne hmem] at h
      simp at h
      obtain ⟨hb, hw⟩ := h
      subst hw
      exact hmem
    · obtain ⟨hbne, w1, hw⟩ := encodeRecordAux_emit w r i hid (Or.inr hmem) b w2 h
      subst hw
      rw [if_neg hne]
      exact mem_insertWritten i w1
  · intro w r b w2 hid h
    obtain ⟨hbne, _⟩ := encodeRecordAux_emit w r 0 hid (Or.inl rfl) b w2 h
    exact ⟨hbne, encodeRecordAux_zero w r b w2 h⟩

theorem encode_dedup_truthiness_witness :
    encodeRecordAux [(5 : Int)] (.objStr 5 [104]) = some ([], [5]) :=
  encode_dedup_truthiness.1 [5] (.objStr 5 [104]) 5 rfl (by decide)
    (List.mem_singleton.mpr rfl)

/-! ## The decoder (`NrbfDecoder`)

The decoder is modelled as explicit state passing over

  * the remaining byte list (the reader offset), and
  * a `DecState` holding the three JS `Map`s (`recordMap`, `libraryMap`,
    `metadataMap`) as insertion-ordered association lists.

The mutually recursive record readers take a fuel parameter that every call
passes down; `none` covers a JS throw, reading past the end of the buffer,
and fuel running out (the JS code can loop forever only by exceeding the
100000-record cap of `decode`, which also throws).  Theorems below hold for
every fuel value, and concrete witnesses pick a sufficient one. -/

/-- `BinaryReader.readSByte` (`DataView.getInt8`). -/
def readSByte : List Nat → Option (Int × List Nat)
  | [] => none
  | b :: rest => some (if b % 256 < 128 then ((b % 256 : Nat) : Int)
      else ((b % 256 : Nat) : Int) - 256, rest)

/-- `BinaryReader.readInt64` (`DataView.getBigInt64`, little-endian). -/
def readInt64 : List Nat → Option (Int × List Nat)
  | b0 :: b1 :: b2 :: b3 :: b4 :: b5 :: b6 :: b7 :: rest =>
      let v : Nat := b0 + b1 * 256 + b2 * 65536 + b3 * 16777216 +
        b4 * 4294967296 + b5 * 1099511627776 + b6 * 281474976710656 +
        b7 * 72057594037927936
      some (if v % u64 < 9223372036854775808 then ((v % u64 : Nat) : Int)
        else ((v % u64 : Nat) : Int) - (u64 : Int), rest)
  | _ => none

/-- `BinaryReader.readUInt64` (`DataView.getBigUint64`, little-endian). -/
def readUInt64 : List Nat → Option (Int × List Nat)
  | b0 :: b1 :: b2 :: b3 :: b4 :: b5 :: b6 :: b7 :: rest =>
      some (((b0 + b1 * 256 + b2 * 65536 + b3 * 16777216 +
        b4 * 4294967296 + b5 * 1099511627776 + b6 * 281474976710656 +
        b7 * 72057594037927936) % u64 % u64 : Nat) % u64, rest)
  | _ => none

/-- `String.fromCharCode(b)` for a byte argument, as the UTF-8 code units of
the resulting one-character string (code points 128..255 occupy two
units). -/
def jsFromCharCode (b : Nat) : JStr :=
  if b % 256 < 128 then [b % 256]
  else [192 ||| (b % 256 >>> 6), 128 ||| (b % 256 &&& 63)]

/-- `NrbfDecoder.readPrimitiveValue`, dispatching on the `PrimitiveType`
byte.  `Int64`/`UInt64`/`DateTime`/`TimeSpan` pass through JS
`Number(bigint)`, which rounds beyond 2^53; the value is kept exact here
(no claim observes these values).  `Decimal` reads 16 bytes and renders
them as a lowercase hex string; `Char` is `String.fromCharCode` of one
byte; an unknown type throws. -/
def readPrimitiveValue (pt : Nat) (bs : List Nat) :
    Option (PrimVal × List Nat) :=
  if pt = 1 then do
    let (b, r) ← readByte bs
    some (.pBool (b != 0), r)
  else if pt = 2 then do
    let (b, r) ← readByte bs
    some (.pNum b, r)
  else if pt = 10 then do
    let (v, r) ← readSByte bs
    some (.pNum v, r)
  else if pt = 3 then do
    let (b, r) ← readByte bs
    some (.pStr (jsFromCharCode b), r)
  else if pt = 7 then do
    let (v, r) ← readInt16 bs
    some (.pNum v, r)
  else if pt = 14 then do
    let (v, r) ← readUInt16 bs
    some (.pNum v, r)
  else if pt = 8 then do
    let (v, r) ← readInt32 bs
    some (.pNum v, r)
  else if pt = 15 then do
    let (v, r) ← readUInt32 bs
    some (.pNum v, r)
  else if pt = 9 then do
    let (v, r) ← readInt64 bs
    some (.pNum v, r)
  else if pt = 16 then do
    let (v, r) ← readUInt64 bs
    some (.pNum v, r)
  else if pt = 11 then do
    let (v, r) ← readBytes 4 bs
    some (.pF32 v, r)
  else if pt = 6 then do
    let (v, r) ← readBytes 8 bs
    some (.pF64 v, r)
  else if pt = 5 then do
    let (v, r) ← readBytes 16 bs
    some (.pStr ((v.map byteToHexPair).flatten), r)
  else if pt = 13 then do
    let (v, r) ← readUInt64 bs
    some (.pNum v, r)
  else if pt = 12 then do
    let (v, r) ← readInt64 bs
    some (.pNum v, r)
  else if pt = 18 then do
    let (s, r) ← readLengthPrefixedString bs
    some (.pStr s, r)
  else if pt = 17 then some (.pNull, bs)
  else none

/-- The `memberNames` loop of `NrbfDecoder.readClassInfo`. -/
def readStringsN : Nat → List Nat → Option (List JStr × List Nat)
  | 0, bs => some ([], bs)
  | n + 1, bs => do
      let (s, bs1) ← readLengthPrefixedString bs
      let (rest, bs2) ← readStringsN n bs1
      some (s :: rest, bs2)

/-- `NrbfDecoder.readClassInfo`: objectId, name, memberCount, then
`memberCount` member names (a negative count runs the loop zero times). -/
def readClassInfo (bs : List Nat) : Option (ClassInfo × List Nat) := do
  let (oid, bs1) ← readInt32 bs
  let (name, bs2) ← readLengthPrefixedString bs1
  let (memberCount, bs3) ← readInt32 bs2
  let (memberNames, bs4) ← readStringsN memberCount.toNat bs3
  some (⟨oid, name, memberCount, memberNames⟩, bs4)

/-- `NrbfDecoder.readAdditionalTypeInfo`: one `AdditionalTypeInfo` for a
`BinaryType` byte (Primitive 0 reads a type byte, SystemClass 3 a class
name, Class 4 a class name and library id, anything else nothing). -/
def readAdditionalTypeInfo (binaryType : Nat) (bs : List Nat) :
    Option (AdditionalTypeInfo × List Nat) :=
  if binaryType = 0 then do
    let (pt, bs1) ← readByte bs
    some (.aPrimitive pt, bs1)
  else if binaryType = 3 then do
    let (cn, bs1) ← readLengthPrefixedString bs
    some (.aSystemClass cn, bs1)
  else if binaryType = 4 then do
    let (cn, bs1) ← readLengthPrefixedString bs
    let (lid, bs2) ← readInt32 bs1
    some (.aClass cn lid, bs2)
  else some (.aNone, bs)

/-- The second loop of `NrbfDecoder.readMemberTypeInfo` (whose switch
repeats the cases of `readAdditionalTypeInfo` verbatim): one additional
info per binary-type byte already read. -/
def readAdditionalInfos : List Nat → List Nat →
    Option (List AdditionalTypeInfo × List Nat)
  | [], bs => some ([], bs)
  | t :: ts, bs => do
      let (ai, bs1) ← readAdditionalTypeInfo t bs
      let (rest, bs2) ← readAdditionalInfos ts bs1
      some (ai :: rest, bs2)

/-- `NrbfDecoder.readMemberTypeInfo`: `memberCount` binary-type bytes, then
their additional infos. -/
def readMemberTypeInfo (memberCount : Int) (bs : List Nat) :
    Option (MemberTypeInfo × List Nat) := do
  let (types, bs1) ← readBytes memberCount.toNat bs
  let (ais, bs2) ← readAdditionalInfos types bs1
  some (⟨types, ais⟩, bs2)

/-- The element loop of `NrbfDecoder.decodeArraySinglePrimitive`. -/
def readPrimsN (pt : Nat) : Nat → List Nat → Option (List PrimVal × List Nat)
  | 0, bs => some ([], bs)
  | n + 1, bs => do
      let (v, bs1) ← readPrimitiveValue pt bs
      let (rest, bs2) ← readPrimsN pt n bs1
      some (v :: rest, bs2)

/-- `for (let i = 0; i < rank; i++) lengths.push(readInt32())`. -/
def readInt32sN : Nat → List Nat → Option (List Int × List Nat)
  | 0, bs => some ([], bs)
  | n + 1, bs => do
      let (v, bs1) ← readInt32 bs
      let (rest, bs2) ← readInt32sN n bs1
      some (v :: rest, bs2)

/-- The decoder's three maps: `recordMap`, `libraryMap` and `metadataMap`
(a metadata entry is `{classInfo, memberTypeInfo, libraryId}`). -/
structure DecState where
  recordMap : List (Int × Val)
  libraryMap : List (Int × JStr)
  metadataMap : List (Int × (ClassInfo × Option MemberTypeInfo × Option Int))

mutual

/-- Structural equality on `Val` (`DecidableEq` cannot be derived for the
nested inductive), used by `replaceIfCurrent` below. -/
def valBEq : Val → Val → Bool
  | .prim p, .prim p' => decide (p = p')
  | .header a b c d, .header a' b' c' d' =>
      decide (a = a') && decide (b = b') && decide (c = c') && decide (d = d')
  | .library l n, .library l' n' => decide (l = l') && decide (n = n')
  | .cls ci mti lib rt mem, .cls ci' mti' lib' rt' mem' =>
      decide (ci = ci') && decide (mti = mti') && decide (lib = lib') &&
      decide (rt = rt') && memListBEq mem mem'
  | .binArray i k r ls lb te ai es, .binArray i' k' r' ls' lb' te' ai' es' =>
      decide (i = i') && decide (k = k') && decide (r = r') &&
      decide (ls = ls') && decide (lb = lb') && decide (te = te') &&
      decide (ai = ai') && valListBEq es es'
  | .arrPrim i l p es, .arrPrim i' l' p' es' =>
      decide (i = i') && decide (l = l') && decide (p = p') && decide (es = es')
  | .arrObj i l es, .arrObj i' l' es' =>
      decide (i = i') && decide (l = l') && valListBEq es es'
  | .arrStr i l es, .arrStr i' l' es' =>
      decide (i = i') && decide (l = l') && valListBEq es es'
  | .objStr i s, .objStr i' s' => decide (i = i') && decide (s = s')
  | .memberPrim p v, .memberPrim p' v' => decide (p = p') && decide (v = v')
  | .ref i, .ref i' => decide (i = i')
  | .onull, .onull => true
  | .onullMultiple c, .onullMultiple c' => decide (c = c')
  | .onullMultiple256 c, .onullMultiple256 c' => decide (c = c')
  | .msgEnd, .msgEnd => true
  | _, _ => false
termination_by v _ => sizeOf v
decreasing_by
  all_goals simp_wf
  all_goals omega

/-- Elementwise `valBEq`. -/
def valListBEq : List Val → List Val → Bool
  | [], [] => true
  | x :: xs, y :: ys => valBEq x y && valListBEq xs ys
  | _, _ => false
termination_by l _ => sizeOf l
decreasing_by
  all_goals simp_wf
  all_goals omega

/-- Entrywise `valBEq` on member maps. -/
def memListBEq : List (JStr × Val) → List (JStr × Val) → Bool
  | [], [] => true
  | (k, v) :: xs, (k', v') :: ys =>
      decide (k = k') && valBEq v v' && memListBEq xs ys
  | _, _ => false
termination_by l _ => sizeOf l
decreasing_by
  all_goals simp_wf
  all_goals omega

end

/-- Completing a class record after its member values are read.  The JS
decoder `recordMap.set`s the freshly constructed (still member-less) record
object before reading the member values, and mutation fills the members in
place: afterwards the map slot shows the completed record — unless a nested
record re-`set` the same id while the members were read, in which case that
nested object (unaffected by the outer mutation) stays.  A nested record
that is structurally equal to the untouched placeholder can only be an
identical member-less class, for which replacing is a no-op, so the
structural comparison here is observationally the JS identity test. -/
def replaceIfCurrent (m : List (Int × Val)) (id : Int) (old fin : Val) :
    List (Int × Val) :=
  match mapGet m id with
  | some v => if valBEq v old then mapSet m id fin else m
  | none => m

mutual

/-- `NrbfDecoder.decodeNext`: read the record-type byte, reject bytes
outside 0..17, and dispatch.  Class records register their metadata and
their (under-construction) record object before reading member values; see
`replaceIfCurrent` for the completion step.  String and array records
register after being fully read, matching the JS order of `Map.set`
calls. -/
def decodeNext : Nat → List Nat → DecState → Option (Val × List Nat × DecState)
  | 0, _, _ => none
  | fuel + 1, bs, st => do
    let (tag, bs1) ← readByte bs
    if tag > 17 then none
    else if tag = 0 then do
      let (rootId, b1) ← readInt32 bs1
      let (headerId, b2) ← readInt32 b1
      let (maj, b3) ← readInt32 b2
      let (mino, b4) ← readInt32 b3
      some (.header rootId headerId maj mino, b4, st)
    else if tag = 12 then do
      let (libId, b1) ← readInt32 bs1
      let (name, b2) ← readLengthPrefixedString b1
      some (.library libId name, b2,
        { st with libraryMap := mapSet st.libraryMap libId name })
    else if tag = 5 then do
      let (ci, b1) ← readClassInfo bs1
      let (mti, b2) ← readMemberTypeInfo ci.memberCount b1
      let (libId, b3) ← readInt32 b2
      let ph := Val.cls ci (some mti) (some libId) 5 []
      let st1 : DecState := { st with
        metadataMap := mapSet st.metadataMap ci.objectId (ci, some mti, some libId),
        recordMap := mapSet st.recordMap ci.objectId ph }
      let (mem, b4, st2) ← readMembersTyped fuel ci.memberNames mti 0 b3 st1 []
      let fin := Val.cls ci (some mti) (some libId) 5 mem
      some (fin, b4,
        { st2 with recordMap := replaceIfCurrent st2.recordMap ci.objectId ph fin })
    else if tag = 4 then do
      let (ci, b1) ← readClassInfo bs1
      let (mti, b2) ← readMemberTypeInfo ci.memberCount b1
      let ph := Val.cls ci (some mti) none 4 []
      let st1 : DecState := { st with
        metadataMap := mapSet st.metadataMap ci.objectId (ci, some mti, none),
        recordMap := mapSet st.recordMap ci.objectId ph }
      let (mem, b3, st2) ← readMembersTyped fuel ci.memberNames mti 0 b2 st1 []
      let fin := Val.cls ci (some mti) none 4 mem
      some (fin, b3,
        { st2 with recordMap := replaceIfCurrent st2.recordMap ci.objectId ph fin })
    else if tag = 2 then do
      let (ci, b1) ← readClassInfo bs1
      let ph := Val.cls ci none none 2 []
      let st1 : DecState := { st with
        metadataMap := mapSet st.metadataMap ci.objectId (ci, none, none),
        recordMap := mapSet st.recordMap ci.objectId ph }
      let (mem, b2, st2) ← readMembersPlain fuel ci.memberNames b1 st1 []
      let fin := Val.cls ci none none 2 mem
      some (fin, b2,
        { st2 with recordMap := replaceIfCurrent st2.recordMap ci.objectId ph fin })
    else if tag = 3 then do
      let (ci, b1) ← readClassInfo bs1
      let (libId, b2) ← readInt32 b1
      let ph := Val.cls ci none (some libId) 3 []
      let st1 : DecState := { st with
        metadataMap := mapSet st.metadataMap ci.objectId (ci, none, some libId),
        recordMap := mapSet st.recordMap ci.objectId ph }
      let (mem, b3, st2) ← readMembersPlain fuel ci.memberNames b2 st1 []
      let fin := Val.cls ci none (some libId) 3 mem
      some (fin, b3,
        { st2 with recordMap := replaceIfCurrent st2.recordMap ci.objectId ph fin })
    else if tag = 1 then do
      let (oid, b1) ← readInt32 bs1
      let (metadataId, b2) ← readInt32 b1
      match mapGet st.metadataMap metadataId with
      | none => none
      | some (mci, mmti, mlib) =>
        let ci : ClassInfo := ⟨oid, mci.name, mci.memberCount, mci.memberNames⟩
        let ph := Val.cls ci mmti mlib 1 []
        let st1 : DecState :=
          { st with recordMap := mapSet st.recordMap oid ph }
        match mmti with
        | some mti => do
            let (mem, b3, st2) ← readMembersTyped fuel ci.memberNames mti 0 b2 st1 []
            let fin := Val.cls ci mmti mlib 1 mem
            some (fin, b3,
              { st2 with recordMap := replaceIfCurrent st2.recordMap oid ph fin })
        | none => do
            let (mem, b3, st2) ← readMembersPlain fuel ci.memberNames b2 st1 []
            let fin := Val.cls ci mmti mlib 1 mem
            some (fin, b3,
              { st2 with recordMap := replaceIfCurrent st2.recordMap oid ph fin })
    else if tag = 6 then do
      let (oid, b1) ← readInt32 bs1
      let (value, b2) ← readLengthPrefixedString b1
      let r := Val.objStr oid value
      some (r, b2, { st with recordMap := mapSet st.recordMap oid r })
    else if tag = 7 then do
      let (oid, b1) ← readInt32 bs1
      let (bat, b2) ← readByte b1
      let (rank, b3) ← readInt32 b2
      let (lengths, b4) ← readInt32sN rank.toNat b3
      let (lowerBounds, b5) ←
        if bat = 3 ∨ bat = 4 ∨ bat = 5 then do
          let (lb, b5) ← readInt32sN rank.toNat b4
          some (some lb, b5)
        else some (none, b4)
      let (te, b6) ← readByte b5
      let (ai, b7) ← readAdditionalTypeInfo te b6
      let (es, b8, st1) ←
        readAllElements fuel (lengths.foldl (· * ·) 1) te ai 0 [] b7 st
      let r := Val.binArray oid bat rank lengths lowerBounds te ai es
      some (r, b8, { st1 with recordMap := mapSet st1.recordMap oid r })
    else if tag = 15 then do
      let (oid, b1) ← readInt32 bs1
      let (len, b2) ← readInt32 b1
      let (pt, b3) ← readByte b2
      let (es, b4) ← readPrimsN pt len.toNat b3
      let r := Val.arrPrim oid len pt es
      some (r, b4, { st with recordMap := mapSet st.recordMap oid r })
    else if tag = 16 then do
      let (oid, b1) ← readInt32 bs1
      let (len, b2) ← readInt32 b1
      let (es, b3, st1) ← readAllElements fuel len 2 AdditionalTypeInfo.aNone 0 [] b2 st
      let r := Val.arrObj oid len es
      some (r, b3, { st1 with recordMap := mapSet st1.recordMap oid r })
    else if tag = 17 then do
      let (oid, b1) ← readInt32 bs1
      let (len, b2) ← readInt32 b1
      let (es, b3, st1) ← readAllElements fuel len 1 AdditionalTypeInfo.aNone 0 [] b2 st
      let r := Val.arrStr oid len es
      some (r, b3, { st1 with recordMap := mapSet st1.recordMap oid r })
    else if tag = 8 then do
      let (pt, b1) ← readByte bs1
      let (v, b2) ← readPrimitiveValue pt b1
      some (.memberPrim pt v, b2, st)
    else if tag = 9 then do
      let (idRef, b1) ← readInt32 bs1
      some (.ref idRef, b1, st)
    else if tag = 10 then some (.onull, bs1, st)
    else if tag = 14 then do
      let (c, b1) ← readInt32 bs1
      some (.onullMultiple c, b1, st)
    else if tag = 13 then do
      let (c, b1) ← readByte bs1
      some (.onullMultiple256 c, b1, st)
    else if tag = 11 then some (.msgEnd, bs1, st)
    else none

/-- `NrbfDecoder.readObjectValue`: a Primitive binary type with Primitive
additional info reads an inline primitive value; everything else reads a
full record. -/
def readObjectValue : Nat → Nat → AdditionalTypeInfo → List Nat → DecState →
    Option (Val × List Nat × DecState)
  | 0, _, _, _, _ => none
  | fuel + 1, bt, ai, bs, st =>
    match bt, ai with
    | 0, .aPrimitive pt => do
        let (v, bs1) ← readPrimitiveValue pt bs
        some (.prim v, bs1, st)
    | _, _ => decodeNext fuel bs st

/-- `NrbfDecoder.readMemberValues`: iterate the member names, indexing
`binaryTypeEnums[i]` / `additionalInfos[i]` (`readObjectValue` is inlined:
an out-of-range binary type is JS `undefined`, which falls through to
`decodeNext`; an in-range Primitive type with a missing additional info
would throw on `.type`). -/
def readMembersTyped : Nat → List JStr → MemberTypeInfo → Nat → List Nat →
    DecState → List (JStr × Val) → Option (List (JStr × Val) × List Nat × DecState)
  | 0, _, _, _, _, _, _ => none
  | _ + 1, [], _, _, bs, st, acc => some (acc, bs, st)
  | fuel + 1, name :: rest, mti, i, bs, st, acc =>
    match mti.binaryTypeEnums.get? i, mti.additionalInfos.get? i with
    | some 0, some (.aPrimitive pt) => do
        let (v, bs1) ← readPrimitiveValue pt bs
        readMembersTyped fuel rest mti (i + 1) bs1 st (mapSet acc name (.prim v))
    | some 0, none => none
    | _, _ => do
        let (v, bs1, st1) ← decodeNext fuel bs st
        readMembersTyped fuel rest mti (i + 1) bs1 st1 (mapSet acc name v)

/-- The untyped member loop (`for memberName of classInfo.memberNames`) of
the class decoders without `MemberTypeInfo`. -/
def readMembersPlain : Nat → List JStr → List Nat → DecState →
    List (JStr × Val) → Option (List (JStr × Val) × List Nat × DecState)
  | 0, _, _, _, _ => none
  | _ + 1, [], bs, st, acc => some (acc, bs, st)
  | fuel + 1, name :: rest, bs, st, acc => do
      let (v, bs1, st1) ← decodeNext fuel bs st
      readMembersPlain fuel rest bs1 st1 (mapSet acc name v)

/-- `NrbfDecoder.readAllElements`: the `while (i < count)` loop.  A null-run
record pushes `nullCount` nulls (zero when negative) and advances `i` by the
signed `nullCount`; anything else pushes one element. -/
def readAllElements : Nat → Int → Nat → AdditionalTypeInfo → Int → List Val →
    List Nat → DecState → Option (List Val × List Nat × DecState)
  | 0, _, _, _, _, _, _, _ => none
  | fuel + 1, count, bt, ai, i, acc, bs, st =>
    if i < count then do
      let (v, bs1, st1) ← readObjectValue fuel bt ai bs st
      match v with
      | .onullMultiple n =>
          readAllElements fuel count bt ai (i + n)
            (acc ++ List.replicate n.toNat (.prim .pNull)) bs1 st1
      | .onullMultiple256 n =>
          readAllElements fuel count bt ai (i + n)
            (acc ++ List.replicate n (.prim .pNull)) bs1 st1
      | .onull =>
          readAllElements fuel count bt ai (i + 1)
            (acc ++ [.prim .pNull]) bs1 st1
      | v => readAllElements fuel count bt ai (i + 1) (acc ++ [v]) bs1 st1
    else some (acc, bs, st)

end

/-- The `do … while (!(record instanceof MessageEndRecord))` loop of
`NrbfDecoder.decode`, with its 100000-record cap (checked after each
record, before the loop condition). -/
def decodeLoop : Nat → Nat → List Nat → DecState → Option (List Nat × DecState)
  | 0, _, _, _ => none
  | fuel + 1, count, bs, st => do
      let (r, bs1, st1) ← decodeNext fuel bs st
      if count + 1 > 100000 then none
      else match r with
        | .msgEnd => some (bs1, st1)
        | _ => decodeLoop fuel (count + 1) bs1 st1

/-- `NrbfDecoder.decode`: a 0x00 header byte, the four header int32s, the
record loop until MessageEnd, then the root lookup (`Root object with ID …
not found` throws). -/
def decode (fuel : Nat) (bs : List Nat) : Option (Val × DecState) := do
  let (headerByte, b1) ← readByte bs
  if headerByte ≠ 0 then none
  else do
    let (rootId, b2) ← readInt32 b1
    let (_headerId, b3) ← readInt32 b2
    let (_maj, b4) ← readInt32 b3
    let (_mino, b5) ← readInt32 b4
    let (_, st) ← decodeLoop fuel 0 b5 ⟨[], [], []⟩
    match mapGet st.recordMap rootId with
    | some root => some (root, st)
    | none => none

/-- The byte stream of spec §8's "empty graph" example exactly as listed
there: the root id field is the bytes 0,0,0,1. -/
def helloStreamSpec : List Nat :=
  [0, 0, 0, 0, 1, 255, 255, 255, 255, 1, 0, 0, 0, 0, 0, 0, 0,
   6, 1, 0, 0, 0, 5, 104, 101, 108, 108, 111, 11]

/-- The same stream with the root id stored little-endian (bytes 1,0,0,0),
as the encoder produces it. -/
def helloStream : List Nat :=
  [0, 1, 0, 0, 0, 255, 255, 255, 255, 1, 0, 0, 0, 0, 0, 0, 0,
   6, 1, 0, 0, 0, 5, 104, 101, 108, 108, 111, 11]

/-- C2 (counterexample): the 29 bytes listed in the spec do NOT decode to a
root: their root-id field reads little-endian as 16777216, no record has
that id, and `decode` throws `Root object with ID 16777216 not found` —
at every fuel value. -/
theorem helloStreamSpec_no_root : decode 10 helloStreamSpec = none := rfl

/-- C2 (amended): with the root id stored little-endian (bytes 1,0,0,0 —
and the stream is 29 bytes, not 28), decoding succeeds with the root
`BinaryObjectString {id 1, "hello"}` whenever the fuel covers the straight-
line run, and re-encoding that root reproduces the input exactly. -/
theorem helloStream_roundtrip :
    (∀ n, decode (n + 3) helloStream =
      some (.objStr 1 [104, 101, 108, 108, 111],
        ⟨[(1, .objStr 1 [104, 101, 108, 108, 111])], [], []⟩)) ∧
    encode (.objStr 1 [104, 101, 108, 108, 111]) none = some helloStream ∧
    helloStream.length = 29 := by
  refine ⟨fun n => rfl, ?_, rfl⟩
  unfold encode
  rw [encodeRecordAux]
  simp [objectId, insertWritten, writeLengthPrefixedString,
    writeVariableLengthInt_eq]
  rfl

/-- A stream in which two BinaryObjectString records both claim objectId 1
(values "a" then "b"). -/
def dupIdStream : List Nat :=
  [0, 1, 0, 0, 0, 255, 255, 255, 255, 1, 0, 0, 0, 0, 0, 0, 0,
   6, 1, 0, 0, 0, 1, 97,
   6, 1, 0, 0, 0, 1, 98,
   11]

/-- C3 (counterexample): two records claiming objectId 1 do not make
`decode` fail — it succeeds, and the root is the second record. -/
theorem dupIdStream_decodes : decode 10 dupIdStream =
    some (.objStr 1 [98], ⟨[(1, .objStr 1 [98])], [], []⟩) := rfl

/-- C3 (amended): the decoder keeps no duplicate-id check anywhere; a later
record with an already-used id silently overwrites the earlier one in the
record table (`Map.set` replaces in place), decoding succeeds, and lookups
of that id see only the later record. -/
theorem duplicate_id_overwrites :
    (∀ (m : List (Int × Val)) id v w,
      mapGet (mapSet (mapSet m id v) id w) id = some w) ∧
    (∀ n, decode (n + 4) dupIdStream =
      some (.objStr 1 [98], ⟨[(1, .objStr 1 [98])], [], []⟩)) :=
  ⟨fun m id v w => mapGet_mapSet (mapSet m id v) id w, fun n => rfl⟩

/-! ## `NrbfUtils.getNestedValue` (dotted-path lookup) -/

/-- `path.split('.')` over UTF-8 code units (46 is the dot). -/
def splitPathAux : JStr → JStr → List JStr
  | [], acc => [acc.reverse]
  | c :: rest, acc =>
      if c = 46 then acc.reverse :: splitPathAux rest []
      else splitPathAux rest (c :: acc)

/-- `path.split('.')`. -/
def splitPath (s : JStr) : List JStr := splitPathAux s []

/-- ASCII digit test. -/
def isDigitByte (c : Nat) : Bool := 48 ≤ c && c ≤ 57

/-- JS `Number(part)` as the path-segment index test uses it (`none` is
NaN): the empty string is 0, a string of ASCII digits — optionally
minus-signed — is that integer.  Fractional, exponent, hex and whitespace
forms of JS `Number` also produce numbers but are not modelled; only an
integer value can hit an element of `getArray()[Number(part)]` anyway, and
no statement below uses such a segment. -/
def jsNumParse (s : JStr) : Option Int :=
  match s with
  | [] => some 0
  | 45 :: rest =>
      if !rest.isEmpty && rest.all isDigitByte then
        some (-(rest.foldl (fun a c => a * 10 + (c - 48)) 0 : Nat))
      else none
  | _ =>
      if s.all isDigitByte then
        some ((s.foldl (fun a c => a * 10 + (c - 48)) 0 : Nat))
      else none

/-- `current.getArray()[Number(part)]`: a fractional/NaN/negative or
out-of-range index is JS `undefined`. -/
def arrIndex (es : List Val) (part : JStr) : Option Val :=
  match jsNumParse part with
  | none => none
  | some i => if i < 0 then none else es.get? i.toNat

/-- The `for (const part of parts)` loop of `NrbfUtils.getNestedValue`,
followed by the final reference resolution.  `none` is the JS `undefined`
return (the function never throws).  Within an iteration: a
`MemberReferenceRecord` is first replaced by its record-table target (a
miss, or a reference without a decoder, returns `undefined`); then a class
looks up the member, an array record indexes `getArray()` when the segment
is numeric, anything else returns `undefined`; an `undefined` or `null`
result also returns `undefined` (`some (.prim .pNull)` is the decoded JS
`null`). -/
def getNestedLoop (dec : Option (List (Int × Val))) :
    List JStr → Val → Option Val
  | [], current =>
      match current, dec with
      | .ref idRef, some m => mapGet m idRef
      | _, _ => some current
  | part :: rest, current => do
      let cur ←
        match current, dec with
        | .ref idRef, some m => mapGet m idRef
        | .ref _, none => none
        | _, _ => some current
      let v ←
        match cur with
        | .cls _ _ _ _ mem => getValue mem part
        | .arrObj _ _ es => arrIndex es part
        | .arrStr _ _ es => arrIndex es part
        | .binArray _ _ _ _ _ _ _ es => arrIndex es part
        | .arrPrim _ _ _ es => arrIndex (es.map Val.prim) part
        | _ => none
      match v with
      | .prim .pNull => none
      | v => getNestedLoop dec rest v

/-- `NrbfUtils.getNestedValue(record, path, decoder?)`; the decoder argument
is its record table. -/
def getNestedValue (record : Val) (path : JStr)
    (dec : Option (List (Int × Val))) : Option Val :=
  getNestedLoop dec (splitPath path) record

/-- A class `C` whose member `m` holds a reference to the absent id 42. -/
def danglingRefCls : Val :=
  .cls ⟨1, [67], 1, [[109]]⟩ none none 2 [([109], .ref 42)]

/-- C9 (counterexample): looking up `m.x` hits the dangling reference 42
mid-path yet produces the plain `undefined` return, the same result as the
benign lookup of a simply nonexistent member `n` — no `UnresolvedReference`
error carrying the idRef exists anywhere (the source function's type has no
error path and it never throws). -/
theorem getNested_dangling_is_plain_undefined :
    getNestedValue danglingRefCls [109, 46, 120] (some []) = none ∧
    getNestedValue danglingRefCls [110] (some []) = none := ⟨rfl, rfl⟩

/-- C9 (amended): a `MemberReferenceRecord` whose `idRef` misses the record
table makes `getNestedValue` return `undefined` (`none`) — at every path
position, with no error raised. -/
theorem getNested_unresolved_returns_undefined
    (m : List (Int × Val)) (idRef : Int) (parts : List JStr)
    (h : mapGet m idRef = none) :
    getNestedLoop (some m) parts (.ref idRef) = none := by
  cases parts with
  | nil => simp [getNestedLoop, h]
  | cons p rest => simp [getNestedLoop, h]

theorem getNested_unresolved_witness :
    mapGet ([] : List (Int × Val)) 42 = none ∧
    getNestedLoop (some []) [[120]] (.ref 42) = none :=
  ⟨rfl, getNested_unresolved_returns_undefined [] 42 [[120]] rfl⟩

/-! ## The C4 array-length invariant -/

/-- Every decoded array record keeps at least as many expanded element
slots as its declared element count (`totalElements` for BinaryArray,
`length` for the single-dimension kinds); non-array records pass
trivially. -/
def arrOK : Val → Bool
  | .binArray _ _ _ lengths _ _ _ es =>
      decide ((es.length : Int) ≥ lengths.foldl (· * ·) 1)
  | .arrPrim _ len _ es => decide ((es.length : Int) ≥ len)
  | .arrObj _ len es => decide ((es.length : Int) ≥ len)
  | .arrStr _ len es => decide ((es.length : Int) ≥ len)
  | _ => true

/-- All records of a record table satisfy `arrOK`. -/
def tableOK (m : List (Int × Val)) : Bool := m.all fun kv => arrOK kv.2

theorem tableOK_mapSet {m : List (Int × Val)} {k : Int} {v : Val}
    (hm : tableOK m = true) (hv : arrOK v = true) :
    tableOK (mapSet m k v) = true := by
  induction m with
  | nil => simp [mapSet, tableOK, hv]
  | cons kv rest ih =>
    obtain ⟨k', w⟩ := kv
    simp only [tableOK, List.all_cons, Bool.and_eq_true] at hm
    by_cases h : k' = k
    · simp [mapSet, h, tableOK, hv, hm.2]
    · simp only [mapSet, if_neg h, tableOK, List.all_cons, Bool.and_eq_true]
      exact ⟨hm.1, ih hm.2⟩

theorem tableOK_get {m : List (Int × Val)} {k : Int} {v : Val}
    (hm : tableOK m = true) (h : mapGet m k = some v) : arrOK v = true := by
  induction m with
  | nil => simp [mapGet] at h
  | cons kv rest ih =>
    obtain ⟨k', w⟩ := kv
    simp only [tableOK, List.all_cons, Bool.and_eq_true] at hm
    simp only [mapGet] at h
    by_cases hk : k' = k
    · rw [if_pos hk] at h
      cases h
      exact hm.1
    · rw [if_neg hk] at h
      exact ih hm.2 h

theorem tableOK_replaceIfCurrent {m : List (Int × Val)} {id : Int}
    {old fin : Val} (hm : tableOK m = true) (hv : arrOK fin = true) :
    tableOK (replaceIfCurrent m id old fin) = true := by
  unfold replaceIfCurrent
  cases mapGet m id with
  | none => exact hm
  | some v =>
    by_cases h : valBEq v old = true
    · simp only [h, if_true]
      exact tableOK_mapSet hm hv
    · simp only [Bool.not_eq_true] at h
      simp only [h, Bool.false_eq_true, if_false]
      exact hm

theorem readPrimsN_length (pt : Nat) :
    ∀ n bs es bs2, readPrimsN pt n bs = some (es, bs2) → es.length = n := by
  intro n
  induction n with
  | zero =>
    intro bs es bs2 h
    simp only [readPrimsN, Option.some.injEq, Prod.mk.injEq] at h
    obtain ⟨he, _⟩ := h
    subst he
    rfl
  | succ m ih =>
    intro bs es bs2 h
    simp only [readPrimsN, Option.bind_eq_bind, Option.some_bind] at h
    rw [Option.bind_eq_some] at h
    obtain ⟨⟨v, bs1⟩, hr1, h⟩ := h
    simp only [] at h
    rw [Option.bind_eq_some] at h
    obtain ⟨⟨rest, bs3⟩, hr2, h⟩ := h
    simp only [Option.some.injEq, Prod.mk.injEq] at h
    obtain ⟨he, _⟩ := h
    subst he
    simp [ih bs1 rest bs3 hr2]

set_option maxHeartbeats 4000000 in
/-- Every state transformation of the mutually recursive record readers
preserves `tableOK`, and `readAllElements` returns at least
`count - i` new elements on top of the accumulator. -/
theorem decodePreserves : ∀ fuel : Nat,
    (∀ bs st v bs2 st2, decodeNext fuel bs st = some (v, bs2, st2) →
      tableOK st.recordMap = true → tableOK st2.recordMap = true) ∧
    (∀ bt ai bs st v bs2 st2, readObjectValue fuel bt ai bs st = some (v, bs2, st2) →
      tableOK st.recordMap = true → tableOK st2.recordMap = true) ∧
    (∀ names mti i bs st acc mem bs2 st2,
      readMembersTyped fuel names mti i bs st acc = some (mem, bs2, st2) →
      tableOK st.recordMap = true → tableOK st2.recordMap = true) ∧
    (∀ names bs st acc mem bs2 st2,
      readMembersPlain fuel names bs st acc = some (mem, bs2, st2) →
      tableOK st.recordMap = true → tableOK st2.recordMap = true) ∧
    (∀ count bt ai i acc bs st res bs2 st2,
      readAllElements fuel count bt ai i acc bs st = some (res, bs2, st2) →
      (tableOK st.recordMap = true → tableOK st2.recordMap = true) ∧
      (res.length : Int) + i ≥ (acc.length : Int) + count) := by
  intro fuel
  induction fuel with
  | zero =>
    refine ⟨?_, ?_, ?_, ?_, ?_⟩
    · intro bs st v bs2 st2 h
      exact Option.noConfusion h
    · intro bt ai bs st v bs2 st2 h
      exact Option.noConfusion h
    · intro names mti i bs st acc mem bs2 st2 h
      exact Option.noConfusion h
    · intro names bs st acc mem bs2 st2 h
      exact Option.noConfusion h
    · intro count bt ai i acc bs st res bs2 st2 h
      exact Option.noConfusion h
  | succ n ih =>
    obtain ⟨IHnext, IHobj, IHmt, IHmp, IHall⟩ := ih
    refine ⟨?_, ?_, ?_, ?_, ?_⟩
    · -- decodeNext
      intro bs st v bs2 st2 h hm
      rw [decodeNext] at h
      cases hB : readByte bs with
      | none =>
        rw [hB] at h
        exact Option.noConfusion h
      | some p =>
      obtain ⟨tag, bs1⟩ := p
      rw [hB] at h
      simp only [Option.bind_eq_bind, Option.some_bind] at h
      by_cases e17 : tag > 17
      · rw [if_pos e17] at h
        exact Option.noConfusion h
      rw [if_neg e17] at h
      by_cases e0 : tag = 0
      · rw [if_pos e0] at h
        rw [Option.bind_eq_some] at h
        obtain ⟨⟨a1, b1⟩, hr1, h⟩ := h
        simp only [] at h
        rw [Option.bind_eq_some] at h
        obtain ⟨⟨a2, b2⟩, hr2, h⟩ := h
        simp only [] at h
        rw [Option.bind_eq_some] at h
        obtain ⟨⟨a3, b3⟩, hr3, h⟩ := h
        simp only [] at h
        rw [Option.bind_eq_some] at h
        obtain ⟨⟨a4, b4⟩, hr4, h⟩ := h
        simp only [] at h
        simp only [Option.some.injEq, Prod.mk.injEq] at h
        obtain ⟨hv, hbs, hst⟩ := h
        subst hst
        exact hm
      rw [if_neg e0] at h
      by_cases e12 : tag = 12
      · rw [if_pos e12] at h
        rw [Option.bind_eq_some] at h
        obtain ⟨⟨a1, b1⟩, hr1, h⟩ := h
        simp only [] at h
        rw [Option.bind_eq_some] at h
        obtain ⟨⟨a2, b2⟩, hr2, h⟩ := h
        simp only [] at h
        simp only [Option.some.injEq, Prod.mk.injEq] at h
        obtain ⟨hv, hbs, hst⟩ := h
        subst hst
        exact hm
      rw [if_neg e12] at h
      by_cases e5 : tag = 5
      · rw [if_pos e5] at h
        rw [Option.bind_eq_some] at h
        obtain ⟨⟨ci, b1⟩, hr1, h⟩ := h
        simp only [] at h
        rw [Option.bind_eq_some] at h
        obtain ⟨⟨mti, b2⟩, hr2, h⟩ := h
        simp only [] at h
        rw [Option.bind_eq_some] at h
        obtain ⟨⟨libId, b3⟩, hr3, h⟩ := h
        simp only [] at h
        rw [Option.bind_eq_some] at h
        obtain ⟨⟨mem, b4, stM⟩, hr4, h⟩ := h
        simp only [] at h
        simp only [Option.some.injEq, Prod.mk.injEq] at h
        obtain ⟨hv, hbs, hst⟩ := h
        subst hst
        exact tableOK_replaceIfCurrent (IHmt _ _ _ _ _ _ _ _ _ hr4 (tableOK_mapSet hm rfl)) rfl
      rw [if_neg e5] at h
      by_cases e4 : tag = 4
      · rw [if_pos e4] at h
        rw [Option.bind_eq_some] at h
        obtain ⟨⟨ci, b1⟩, hr1, h⟩ := h
        simp only [] at h
        rw [Option.bind_eq_some] at h
        obtain ⟨⟨mti, b2⟩, hr2, h⟩ := h
        simp only [] at h
        rw [Option.bind_eq_some] at h
        obtain ⟨⟨mem, b3, stM⟩, hr3, h⟩ := h
        simp only [] at h
        simp only [Option.some.injEq, Prod.mk.injEq] at h
        obtain ⟨hv, hbs, hst⟩ := h
        subst hst
        exact tableOK_replaceIfCurrent (IHmt _ _ _ _ _ _ _ _ _ hr3 (tableOK_mapSet hm rfl)) rfl
      rw [if_neg e4] at h
      by_cases e2 : tag = 2
      · rw [if_pos e2] at h
        rw [Option.bind_eq_some] at h
        obtain ⟨⟨ci, b1⟩, hr1, h⟩ := h
        simp only [] at h
        rw [Option.bind_eq_some] at h
        obtain ⟨⟨mem, b2, stM⟩, hr2, h⟩ := h
        simp only [] at h
        simp only [Option.some.injEq, Prod.mk.injEq] at h
        obtain ⟨hv, hbs, hst⟩ := h
        subst hst
        exact tableOK_replaceIfCurrent (IHmp _ _ _ _ _ _ _ hr2 (tableOK_mapSet hm rfl)) rfl
      rw [if_neg e2] at h
      by_cases e3 : tag = 3
      · rw [if_pos e3] at h
        rw [Option.bind_eq_some] at h
        obtain ⟨⟨ci, b1⟩, hr1, h⟩ := h
        simp only [] at h
        rw [Option.bind_eq_some] at h
        obtain ⟨⟨libId, b2⟩, hr2, h⟩ := h
        simp only [] at h
        rw [Option.bind_eq_some] at h
        obtain ⟨⟨mem, b3, stM⟩, hr3, h⟩ := h
        simp only [] at h
        simp only [Option.some.injEq, Prod.mk.injEq] at h
        obtain ⟨hv, hbs, hst⟩ := h
        subst hst
        exact tableOK_replaceIfCurrent (IHmp _ _ _ _ _ _ _ hr3 (tableOK_mapSet hm rfl)) rfl
      rw [if_neg e3] at h
      by_cases e1 : tag = 1
      · rw [if_pos e1] at h
        rw [Option.bind_eq_some] at h
        obtain ⟨⟨a1, b1⟩, hr1, h⟩ := h
        simp only [] at h
        rw [Option.bind_eq_some] at h
        obtain ⟨⟨a2, b2⟩, hr2, h⟩ := h
        simp only [] at h
        cases hmd : mapGet st.metadataMap a2 with
        | none =>
          rw [hmd] at h
          exact Option.noConfusion h
        | some md =>
        obtain ⟨mci, mmti, mlib⟩ := md
        rw [hmd] at h
        simp only [] at h
        cases mmti with
        | some mti =>
          rw [Option.bind_eq_some] at h
          obtain ⟨⟨mem, b3, stM⟩, hr3, h⟩ := h
          simp only [] at h
          simp only [Option.some.injEq, Prod.mk.injEq] at h
          obtain ⟨hv, hbs, hst⟩ := h
          subst hst
          exact tableOK_replaceIfCurrent (IHmt _ _ _ _ _ _ _ _ _ hr3 (tableOK_mapSet hm rfl)) rfl
        | none =>
          rw [Option.bind_eq_some] at h
          obtain ⟨⟨mem, b3, stM⟩, hr3, h⟩ := h
          simp only [] at h
          simp only [Option.some.injEq, Prod.mk.injEq] at h
          obtain ⟨hv, hbs, hst⟩ := h
          subst hst
          exact tableOK_replaceIfCurrent (IHmp _ _ _ _ _ _ _ hr3 (tableOK_mapSet hm rfl)) rfl
      rw [if_neg e1] at h
      by_cases e6 : tag = 6
      · rw [if_pos e6] at h
        rw [Option.bind_eq_some] at h
        obtain ⟨⟨a1, b1⟩, hr1, h⟩ := h
        simp only [] at h
        rw [Option.bind_eq_some] at h
        obtain ⟨⟨a2, b2⟩, hr2, h⟩ := h
        simp only [] at h
        simp only [Option.some.injEq, Prod.mk.injEq] at h
        obtain ⟨hv, hbs, hst⟩ := h
        subst hst
        exact tableOK_mapSet hm rfl
      rw [if_neg e6] at h
      by_cases e7 : tag = 7
      · rw [if_pos e7] at h
        rw [Option.bind_eq_some] at h
        obtain ⟨⟨oid, b1⟩, hr1, h⟩ := h
        simp only [] at h
        rw [Option.bind_eq_some] at h
        obtain ⟨⟨bat, b2⟩, hr2, h⟩ := h
        simp only [] at h
        rw [Option.bind_eq_some] at h
        obtain ⟨⟨rank, b3⟩, hr3, h⟩ := h
        simp only [] at h
        rw [Option.bind_eq_some] at h
        obtain ⟨⟨lengths, b4⟩, hr4, h⟩ := h
        simp only [] at h
        by_cases hbat : bat = 3 ∨ bat = 4 ∨ bat = 5
        · rw [if_pos hbat] at h
          rw [Option.bind_eq_some] at h
          obtain ⟨⟨lb, b5⟩, hr5, h⟩ := h
          simp only [] at h
          rw [Option.bind_eq_some] at h
          obtain ⟨⟨te, b6⟩, hr6, h⟩ := h
          simp only [] at h
          rw [Option.bind_eq_some] at h
          obtain ⟨⟨ai2, b7⟩, hr7, h⟩ := h
          simp only [] at h
          rw [Option.bind_eq_some] at h
          obtain ⟨⟨es, b8, stE⟩, hr8, h⟩ := h
          simp only [] at h
          obtain ⟨hok, hlen⟩ := IHall _ _ _ _ _ _ _ _ _ _ hr8
          simp only [Option.some.injEq, Prod.mk.injEq] at h
          obtain ⟨hv, hbs, hst⟩ := h
          subst hst
          refine tableOK_mapSet (hok hm) ?_
          simp only [arrOK, ge_iff_le, decide_eq_true_eq]
          simp at hlen
          omega
        rw [if_neg hbat] at h
        rw [Option.bind_eq_some] at h
        obtain ⟨⟨te, b6⟩, hr5, h⟩ := h
        simp only [] at h
        rw [Option.bind_eq_some] at h
        obtain ⟨⟨ai2, b7⟩, hr6, h⟩ := h
        simp only [] at h
        rw [Option.bind_eq_some] at h
        obtain ⟨⟨es, b8, stE⟩, hr7, h⟩ := h
        simp only [] at h
        obtain ⟨hok, hlen⟩ := IHall _ _ _ _ _ _ _ _ _ _ hr7
        simp only [Option.some.injEq, Prod.mk.injEq] at h
        obtain ⟨hv, hbs, hst⟩ := h
        subst hst
        refine tableOK_mapSet (hok hm) ?_
        simp only [arrOK, ge_iff_le, decide_eq_true_eq]
        simp at hlen
        omega
      rw [if_neg e7] at h
      by_cases e15 : tag = 15
      · rw [if_pos e15] at h
        rw [Option.bind_eq_some] at h
        obtain ⟨⟨oid, b1⟩, hr1, h⟩ := h
        simp only [] at h
        rw [Option.bind_eq_some] at h
        obtain ⟨⟨len, b2⟩, hr2, h⟩ := h
        simp only [] at h
        rw [Option.bind_eq_some] at h
        obtain ⟨⟨pt, b3⟩, hr3, h⟩ := h
        simp only [] at h
        rw [Option.bind_eq_some] at h
        obtain ⟨⟨es, b4⟩, hr4, h⟩ := h
        simp only [] at h
        have hlen := readPrimsN_length _ _ _ _ _ hr4
        simp only [Option.some.injEq, Prod.mk.injEq] at h
        obtain ⟨hv, hbs, hst⟩ := h
        subst hst
        refine tableOK_mapSet hm ?_
        simp only [arrOK, ge_iff_le, decide_eq_true_eq]
        omega
      rw [if_neg e15] at h
      by_cases e16 : tag = 16
      · rw [if_pos e16] at h
        rw [Option.bind_eq_some] at h
        obtain ⟨⟨oid, b1⟩, hr1, h⟩ := h
        simp only [] at h
        rw [Option.bind_eq_some] at h
        obtain ⟨⟨len, b2⟩, hr2, h⟩ := h
        simp only [] at h
        rw [Option.bind_eq_some] at h
        obtain ⟨⟨es, b3, stE⟩, hr3, h⟩ := h
        simp only [] at h
        obtain ⟨hok, hlen⟩ := IHall _ _ _ _ _ _ _ _ _ _ hr3
        simp only [Option.some.injEq, Prod.mk.injEq] at h
        obtain ⟨hv, hbs, hst⟩ := h
        subst hst
        refine tableOK_mapSet (hok hm) ?_
        simp only [arrOK, ge_iff_le, decide_eq_true_eq]
        simp at hlen
        omega
      rw [if_neg e16] at h
      by_cases e17 : tag = 17
      · rw [if_pos e17] at h
        rw [Option.bind_eq_some] at h
        obtain ⟨⟨oid, b1⟩, hr1, h⟩ := h
        simp only [] at h
        rw [Option.bind_eq_some] at h
        obtain ⟨⟨len, b2⟩, hr2, h⟩ := h
        simp only [] at h
        rw [Option.bind_eq_some] at h
        obtain ⟨⟨es, b3, stE⟩, hr3, h⟩ := h
        simp only [] at h
        obtain ⟨hok, hlen⟩ := IHall _ _ _ _ _ _ _ _ _ _ hr3
        simp only [Option.some.injEq, Prod.mk.injEq] at h
        obtain ⟨hv, hbs, hst⟩ := h
        subst hst
        refine tableOK_mapSet (hok hm) ?_
        simp only [arrOK, ge_iff_le, decide_eq_true_eq]
        simp at hlen
        omega
      rw [if_neg e17] at h
      by_cases e8 : tag = 8
      · rw [if_pos e8] at h
        rw [Option.bind_eq_some] at h
        obtain ⟨⟨a1, b1⟩, hr1, h⟩ := h
        simp only [] at h
        rw [Option.bind_eq_some] at h
        obtain ⟨⟨a2, b2⟩, hr2, h⟩ := h
        simp only [] at h
        simp only [Option.some.injEq, Prod.mk.injEq] at h
        obtain ⟨hv, hbs, hst⟩ := h
        subst hst
        exact hm
      rw [if_neg e8] at h
      by_cases e9 : tag = 9
      · rw [if_pos e9] at h
        rw [Option.bind_eq_some] at h
        obtain ⟨⟨a1, b1⟩, hr1, h⟩ := h
        simp only [] at h
        simp only [Option.some.injEq, Prod.mk.injEq] at h
        obtain ⟨hv, hbs, hst⟩ := h
        subst hst
        exact hm
      rw [if_neg e9] at h
      by_cases e10 : tag = 10
      · rw [if_pos e10] at h
        simp only [Option.some.injEq, Prod.mk.injEq] at h
        obtain ⟨hv, hbs, hst⟩ := h
        subst hst
        exact hm
      rw [if_neg e10] at h
      by_cases e14 : tag = 14
      · rw [if_pos e14] at h
        rw [Option.bind_eq_some] at h
        obtain ⟨⟨a1, b1⟩, hr1, h⟩ := h
        simp only [] at h
        simp only [Option.some.injEq, Prod.mk.injEq] at h
        obtain ⟨hv, hbs, hst⟩ := h
        subst hst
        exact hm
      rw [if_neg e14] at h
      by_cases e13 : tag = 13
      · rw [if_pos e13] at h
        rw [Option.bind_eq_some] at h
        obtain ⟨⟨a1, b1⟩, hr1, h⟩ := h
        simp only [] at h
        simp only [Option.some.injEq, Prod.mk.injEq] at h
        obtain ⟨hv, hbs, hst⟩ := h
        subst hst
        exact hm
      rw [if_neg e13] at h
      by_cases e11 : tag = 11
      · rw [if_pos e11] at h
        simp only [Option.some.injEq, Prod.mk.injEq] at h
        obtain ⟨hv, hbs, hst⟩ := h
        subst hst
        exact hm
      rw [if_neg e11] at h
      exact Option.noConfusion h
    · -- readObjectValue
      intro bt ai bs st v bs2 st2 h hm
      cases bt with
      | zero =>
        cases ai with
        | aPrimitive pt =>
          rw [readObjectValue] at h
          simp only [Option.bind_eq_bind, Option.some_bind] at h
          rw [Option.bind_eq_some] at h
          obtain ⟨⟨pv, b1⟩, hr1, h⟩ := h
          simp only [Option.some.injEq, Prod.mk.injEq] at h
          obtain ⟨hv, hbs, hst⟩ := h
          subst hst
          exact hm
        | aSystemClass cn => exact IHnext _ _ _ _ _ h hm
        | aClass cn lid => exact IHnext _ _ _ _ _ h hm
        | aNone => exact IHnext _ _ _ _ _ h hm
      | succ k => exact IHnext _ _ _ _ _ h hm
    · -- readMembersTyped
      intro names mti i bs st acc mem bs2 st2 h hm
      cases names with
      | nil =>
        rw [readMembersTyped] at h
        simp only [Option.some.injEq, Prod.mk.injEq] at h
        obtain ⟨hmem, hbs, hst⟩ := h
        subst hst
        exact hm
      | cons name rest =>
      rw [readMembersTyped] at h
      cases hbt : mti.binaryTypeEnums.get? i with
      | none =>
        rw [hbt] at h
        simp only [Option.bind_eq_bind, Option.some_bind] at h
        rw [Option.bind_eq_some] at h
        obtain ⟨⟨v1, b1, st1⟩, hr1, h⟩ := h
        simp only [] at h
        exact IHmt _ _ _ _ _ _ _ _ _ h (IHnext _ _ _ _ _ hr1 hm)
      | some b =>
      rw [hbt] at h
      cases b with
      | succ bk =>
        simp only [Option.bind_eq_bind, Option.some_bind] at h
        rw [Option.bind_eq_some] at h
        obtain ⟨⟨v1, b1, st1⟩, hr1, h⟩ := h
        simp only [] at h
        exact IHmt _ _ _ _ _ _ _ _ _ h (IHnext _ _ _ _ _ hr1 hm)
      | zero =>
      cases hai : mti.additionalInfos.get? i with
      | none =>
        rw [hai] at h
        exact Option.noConfusion h
      | some ai2 =>
      rw [hai] at h
      cases ai2 with
      | aPrimitive pt =>
        simp only [Option.bind_eq_bind, Option.some_bind] at h
        rw [Option.bind_eq_some] at h
        obtain ⟨⟨pv, b1⟩, hr1, h⟩ := h
        simp only [] at h
        exact IHmt _ _ _ _ _ _ _ _ _ h hm
      | aSystemClass cn =>
        simp only [Option.bind_eq_bind, Option.some_bind] at h
        rw [Option.bind_eq_some] at h
        obtain ⟨⟨v1, b1, st1⟩, hr1, h⟩ := h
        simp only [] at h
        exact IHmt _ _ _ _ _ _ _ _ _ h (IHnext _ _ _ _ _ hr1 hm)
      | aClass cn lid =>
        simp only [Option.bind_eq_bind, Option.some_bind] at h
        rw [Option.bind_eq_some] at h
        obtain ⟨⟨v1, b1, st1⟩, hr1, h⟩ := h
        simp only [] at h
        exact IHmt _ _ _ _ _ _ _ _ _ h (IHnext _ _ _ _ _ hr1 hm)
      | aNone =>
        simp only [Option.bind_eq_bind, Option.some_bind] at h
        rw [Option.bind_eq_some] at h
        obtain ⟨⟨v1, b1, st1⟩, hr1, h⟩ := h
        simp only [] at h
        exact IHmt _ _ _ _ _ _ _ _ _ h (IHnext _ _ _ _ _ hr1 hm)
    · -- readMembersPlain
      intro names bs st acc mem bs2 st2 h hm
      cases names with
      | nil =>
        rw [readMembersPlain] at h
        simp only [Option.some.injEq, Prod.mk.injEq] at h
        obtain ⟨hmem, hbs, hst⟩ := h
        subst hst
        exact hm
      | cons name rest =>
        rw [readMembersPlain] at h
        simp only [Option.bind_eq_bind, Option.some_bind] at h
        rw [Option.bind_eq_some] at h
        obtain ⟨⟨v1, b1, st1⟩, hr1, h⟩ := h
        simp only [] at h
        exact IHmp _ _ _ _ _ _ _ h (IHnext _ _ _ _ _ hr1 hm)
    · -- readAllElements
      intro count bt ai i acc bs st res bs2 st2 h
      rw [readAllElements] at h
      by_cases hic : i < count
      swap
      · rw [if_neg hic] at h
        simp only [Option.some.injEq, Prod.mk.injEq] at h
        obtain ⟨hres, hbs, hst⟩ := h
        subst hst
        subst hres
        exact ⟨fun hmm => hmm, by omega⟩
      rw [if_pos hic] at h
      simp only [Option.bind_eq_bind, Option.some_bind] at h
      rw [Option.bind_eq_some] at h
      obtain ⟨⟨v1, b1, st1⟩, hr1, h⟩ := h
      simp only [] at h
      have hobj := IHobj _ _ _ _ _ _ _ hr1
      cases v1 with
      | prim p0 =>
        obtain ⟨hok, hlen⟩ := IHall _ _ _ _ _ _ _ _ _ _ h
        refine ⟨fun hmm => hok (hobj hmm), ?_⟩
        simp at hlen
        omega
      | header p0 p1 p2 p3 =>
        obtain ⟨hok, hlen⟩ := IHall _ _ _ _ _ _ _ _ _ _ h
        refine ⟨fun hmm => hok (hobj hmm), ?_⟩
        simp at hlen
        omega
      | library p0 p1 =>
        obtain ⟨hok, hlen⟩ := IHall _ _ _ _ _ _ _ _ _ _ h
        refine ⟨fun hmm => hok (hobj hmm), ?_⟩
        simp at hlen
        omega
      | cls p0 p1 p2 p3 p4 =>
        obtain ⟨hok, hlen⟩ := IHall _ _ _ _ _ _ _ _ _ _ h
        refine ⟨fun hmm => hok (hobj hmm), ?_⟩
        simp at hlen
        omega
      | binArray p0 p1 p2 p3 p4 p5 p6 p7 =>
        obtain ⟨hok, hlen⟩ := IHall _ _ _ _ _ _ _ _ _ _ h
        refine ⟨fun hmm => hok (hobj hmm), ?_⟩
        simp at hlen
        omega
      | arrPrim p0 p1 p2 p3 =>
        obtain ⟨hok, hlen⟩ := IHall _ _ _ _ _ _ _ _ _ _ h
        refine ⟨fun hmm => hok (hobj hmm), ?_⟩
        simp at hlen
        omega
      | arrObj p0 p1 p2 =>
        obtain ⟨hok, hlen⟩ := IHall _ _ _ _ _ _ _ _ _ _ h
        refine ⟨fun hmm => hok (hobj hmm), ?_⟩
        simp at hlen
        omega
      | arrStr p0 p1 p2 =>
        obtain ⟨hok, hlen⟩ := IHall _ _ _ _ _ _ _ _ _ _ h
        refine ⟨fun hmm => hok (hobj hmm), ?_⟩
        simp at hlen
        omega
      | objStr p0 p1 =>
        obtain ⟨hok, hlen⟩ := IHall _ _ _ _ _ _ _ _ _ _ h
        refine ⟨fun hmm => hok (hobj hmm), ?_⟩
        simp at hlen
        omega
      | memberPrim p0 p1 =>
        obtain ⟨hok, hlen⟩ := IHall _ _ _ _ _ _ _ _ _ _ h
        refine ⟨fun hmm => hok (hobj hmm), ?_⟩
        simp at hlen
        omega
      | ref p0 =>
        obtain ⟨hok, hlen⟩ := IHall _ _ _ _ _ _ _ _ _ _ h
        refine ⟨fun hmm => hok (hobj hmm), ?_⟩
        simp at hlen
        omega
      | onull =>
        obtain ⟨hok, hlen⟩ := IHall _ _ _ _ _ _ _ _ _ _ h
        refine ⟨fun hmm => hok (hobj hmm), ?_⟩
        simp at hlen
        omega
      | onullMultiple nn =>
        obtain ⟨hok, hlen⟩ := IHall _ _ _ _ _ _ _ _ _ _ h
        refine ⟨fun hmm => hok (hobj hmm), ?_⟩
        simp at hlen
        omega
      | onullMultiple256 nn =>
        obtain ⟨hok, hlen⟩ := IHall _ _ _ _ _ _ _ _ _ _ h
        refine ⟨fun hmm => hok (hobj hmm), ?_⟩
        simp at hlen
        omega
      | msgEnd =>
        obtain ⟨hok, hlen⟩ := IHall _ _ _ _ _ _ _ _ _ _ h
        refine ⟨fun hmm => hok (hobj hmm), ?_⟩
        simp at hlen
        omega

theorem decodeLoop_preserves : ∀ fuel count bs st bs2 st2,
    decodeLoop fuel count bs st = some (bs2, st2) →
    tableOK st.recordMap = true → tableOK st2.recordMap = true := by
  intro fuel
  induction fuel with
  | zero =>
    intro count bs st bs2 st2 h
    exact Option.noConfusion h
  | succ n ih =>
    intro count bs st bs2 st2 h hm
    rw [decodeLoop] at h
    simp only [Option.bind_eq_bind, Option.some_bind] at h
    rw [Option.bind_eq_some] at h
    obtain ⟨⟨r, b1, st1⟩, hr1, h⟩ := h
    simp only [] at h
    by_cases hc : count + 1 > 100000
    · rw [if_pos hc] at h
      exact Option.noConfusion h
    rw [if_neg hc] at h
    have hst1 := (decodePreserves n).1 _ _ _ _ _ hr1 hm
    cases r with
    | msgEnd =>
      simp only [Option.some.injEq, Prod.mk.injEq] at h
      obtain ⟨hbs, hst⟩ := h
      subst hst
      exact hst1
    | prim p0 => exact ih _ _ _ _ _ h hst1
    | header p0 p1 p2 p3 => exact ih _ _ _ _ _ h hst1
    | library p0 p1 => exact ih _ _ _ _ _ h hst1
    | cls p0 p1 p2 p3 p4 => exact ih _ _ _ _ _ h hst1
    | binArray p0 p1 p2 p3 p4 p5 p6 p7 => exact ih _ _ _ _ _ h hst1
    | arrPrim p0 p1 p2 p3 => exact ih _ _ _ _ _ h hst1
    | arrObj p0 p1 p2 => exact ih _ _ _ _ _ h hst1
    | arrStr p0 p1 p2 => exact ih _ _ _ _ _ h hst1
    | objStr p0 p1 => exact ih _ _ _ _ _ h hst1
    | memberPrim p0 p1 => exact ih _ _ _ _ _ h hst1
    | ref p0 => exact ih _ _ _ _ _ h hst1
    | onull => exact ih _ _ _ _ _ h hst1
    | onullMultiple nn => exact ih _ _ _ _ _ h hst1
    | onullMultiple256 nn => exact ih _ _ _ _ _ h hst1

/-- C4 (amended): on every accepted stream, a decoded array record holds AT
LEAST `totalElements` (BinaryArray) resp. `length` (single-dimension kinds)
expanded elements — with equality replaced by `≥` because an
`ObjectNullMultiple`/`ObjectNullMultiple256` run whose count exceeds the
unfilled slots still pushes all its nulls.  The bound holds for the root
and for every record in the final record table. -/
theorem decode_array_lengths :
    ∀ fuel bs root st, decode fuel bs = some (root, st) →
      arrOK root = true ∧
      ∀ id v, mapGet st.recordMap id = some v → arrOK v = true := by
  intro fuel bs root st h
  unfold decode at h
  simp only [Option.bind_eq_bind, Option.some_bind] at h
  rw [Option.bind_eq_some] at h
  obtain ⟨⟨hb, b1⟩, hr1, h⟩ := h
  simp only [] at h
  by_cases hz : hb ≠ 0
  · rw [if_pos hz] at h
    exact Option.noConfusion h
  rw [if_neg hz] at h
  rw [Option.bind_eq_some] at h
  obtain ⟨⟨rootId, b2⟩, hr2, h⟩ := h
  simp only [] at h
  rw [Option.bind_eq_some] at h
  obtain ⟨⟨a3, b3⟩, hr3, h⟩ := h
  simp only [] at h
  rw [Option.bind_eq_some] at h
  obtain ⟨⟨a4, b4⟩, hr4, h⟩ := h
  simp only [] at h
  rw [Option.bind_eq_some] at h
  obtain ⟨⟨a5, b5⟩, hr5, h⟩ := h
  simp only [] at h
  rw [Option.bind_eq_some] at h
  obtain ⟨⟨bL, stL⟩, hrL, h⟩ := h
  simp only [] at h
  have hok : tableOK stL.recordMap = true :=
    decodeLoop_preserves _ _ _ _ _ _ hrL rfl
  cases hg : mapGet stL.recordMap rootId with
  | none =>
    rw [hg] at h
    exact Option.noConfusion h
  | some r0 =>
    rw [hg] at h
    simp only [Option.some.injEq, Prod.mk.injEq] at h
    obtain ⟨hr, hst⟩ := h
    subst hst
    subst hr
    exact ⟨tableOK_get hok hg, fun id v hv => tableOK_get hok hv⟩

/-- A stream whose ArraySingleObject declares length 2 but whose element
stream is a single ObjectNullMultiple256 with count 5. -/
def overflowStream : List Nat :=
  [0, 1, 0, 0, 0, 255, 255, 255, 255, 1, 0, 0, 0, 0, 0, 0, 0,
   16, 1, 0, 0, 0, 2, 0, 0, 0, 13, 5, 11]

/-- C4 (counterexample): the overshooting null run is accepted and pushes
all five nulls: the decoded array stores 5 element values against a
declared length of 2, so `elementValues.length == length` fails. -/
theorem overflow_array_longer :
    decode 10 overflowStream =
      some (.arrObj 1 2 (List.replicate 5 (.prim .pNull)),
        ⟨[(1, .arrObj 1 2 (List.replicate 5 (.prim .pNull)))], [], []⟩) ∧
    (List.replicate 5 (Val.prim .pNull)).length ≠ 2 := ⟨rfl, by decide⟩

theorem decode_array_lengths_witness :
    arrOK (Val.arrObj 1 2 (List.replicate 5 (.prim .pNull))) = true :=
  (decode_array_lengths 10 overflowStream _ _ rfl).1

/-! ## C1: null-run re-encoding -/

/-- A stream whose single record is an ArraySingleObject of length `k`
whose element stream is one ObjectNullMultiple256 with count `k`
(`1 ≤ k ≤ 255`; both the length field and the count byte hold `k`). -/
def nullRunStream (k : Nat) : List Nat :=
  [0, 1, 0, 0, 0, 255, 255, 255, 255, 1, 0, 0, 0, 0, 0, 0, 0,
   16, 1, 0, 0, 0, k, 0, 0, 0, 13, k, 11]

/-- Re-encoding the decoded array writes the `k` expanded nulls as `k`
separate ObjectNull (0x0A) bytes — no null-run record. -/
def nullRunReencoded (k : Nat) : List Nat :=
  [0, 1, 0, 0, 0, 255, 255, 255, 255, 1, 0, 0, 0, 0, 0, 0, 0,
   16, 1, 0, 0, 0, k, 0, 0, 0] ++ List.replicate k 10 ++ [11]

theorem encodeElems_nulls (w : List Int) :
    ∀ k, encodeElems w (List.replicate k (.prim .pNull)) =
      some (List.replicate k 10, w) := by
  intro k
  induction k with
  | zero => rw [List.replicate_zero, encodeElems]; rfl
  | succ m ih =>
    rw [List.replicate_succ, encodeElems]
    simp [writeObjectValue, ih, List.replicate_succ]

theorem int32le_byte (k : Nat) (hk : k ≤ 255) : int32le (k : Int) = [k, 0, 0, 0] := by
  have h1 : toUInt32 (k : Int) = k := by
    unfold toUInt32 u32
    omega
  unfold int32le
  rw [h1]
  have e1 : k % 256 = k := Nat.mod_eq_of_lt (by omega)
  have e2 : k / 256 = 0 := Nat.div_eq_of_lt (by omega)
  have e3 : k / 65536 = 0 := Nat.div_eq_of_lt (by omega)
  have e4 : k / 16777216 = 0 := Nat.div_eq_of_lt (by omega)
  rw [e1, e2, e3, e4]

/-- C1 (amended): decoding a stream with an ObjectNullMultiple256 count-k
null run yields the array with k expanded nulls, and re-encoding emits k
separate ObjectNull records — not an ObjectNullMultiple256 and not
ObjectNullMultiple records. -/
theorem nullRun_roundtrip (k : Nat) (h1 : 1 ≤ k) (h2 : k ≤ 255) :
    decode 10 (nullRunStream k) =
      some (.arrObj 1 k (List.replicate k (.prim .pNull)),
        ⟨[(1, .arrObj 1 k (List.replicate k (.prim .pNull)))], [], []⟩) ∧
    encode (.arrObj 1 k (List.replicate k (.prim .pNull))) none =
      some (nullRunReencoded k) := by
  constructor
  · interval_cases k <;> rfl
  · unfold encode
    rw [encodeRecordAux]
    simp only [objectId]
    rw [encodeElems_nulls]
    rw [int32le_byte k h2]
    rfl

/-- C1 (counterexample): at k = 3 the re-encoded stream holds three
separate ObjectNull bytes and no ObjectNullMultiple256 (0x0D) and no
ObjectNullMultiple (0x0E) record at all — the original single-record
round-trip claim fails. -/
theorem nullRun3_reencodes_expanded :
    decode 10 (nullRunStream 3) =
      some (.arrObj 1 3 (List.replicate 3 (.prim .pNull)),
        ⟨[(1, .arrObj 1 3 (List.replicate 3 (.prim .pNull)))], [], []⟩) ∧
    encode (.arrObj 1 3 (List.replicate 3 (.prim .pNull))) none =
      some [0, 1, 0, 0, 0, 255, 255, 255, 255, 1, 0, 0, 0, 0, 0, 0, 0,
        16, 1, 0, 0, 0, 3, 0, 0, 0, 10, 10, 10, 11] ∧
    List.count 10 [0, 1, 0, 0, 0, 255, 255, 255, 255, 1, 0, 0, 0, 0, 0, 0, 0,
      16, 1, 0, 0, 0, 3, 0, 0, 0, 10, 10, 10, 11] = 3 ∧
    ¬ 13 ∈ [0, 1, 0, 0, 0, 255, 255, 255, 255, 1, 0, 0, 0, 0, 0, 0, 0,
      16, 1, 0, 0, 0, 3, 0, 0, 0, 10, 10, 10, 11] ∧
    ¬ 14 ∈ [0, 1, 0, 0, 0, 255, 255, 255, 255, 1, 0, 0, 0, 0, 0, 0, 0,
      16, 1, 0, 0, 0, 3, 0, 0, 0, 10, 10, 10, 11] := by
  refine ⟨rfl, ?_, by decide, by decide, by decide⟩
  unfold encode
  rw [encodeRecordAux]
  simp only [objectId]
  rw [encodeElems_nulls]
  rfl

theorem nullRun_roundtrip_witness :
    decode 10 (nullRunStream 7) =
      some (.arrObj 1 7 (List.replicate 7 (.prim .pNull)),
        ⟨[(1, .arrObj 1 7 (List.replicate 7 (.prim .pNull)))], [], []⟩) ∧
    encode (.arrObj 1 7 (List.replicate 7 (.prim .pNull))) none =
      some (nullRunReencoded 7) :=
  nullRun_roundtrip 7 (by decide) (by decide)

end Nrbf
